import Mathlib

/-!
Shallow embedding of the Prompt Versioning & Lifecycle Engine of the
System_prompt_management_tool repository.

The data model follows `app/models/prompt.py` (tables `prompts` and
`prompt_history`), and the operations follow `app/crud/crud.py` together with
the activation endpoint of `app/api/v1/set_active_version.py` /
`app/api/v1/api.py` and the auto-version endpoint `update_with_auto_version`
of `app/api/v1/api.py`.

The SQLAlchemy session is modelled by a pair of database states (committed and
pending).  Each CRUD function is embedded as the list of session interactions
it performs, in source order (`Step`); `db.commit()` publishes the pending
state, and stopping after any prefix of the steps models a failure in the
middle of the operation, as the remaining pending changes are rolled back.
Timestamps (`datetime.utcnow()`) are passed in explicitly as a `now : Nat`
parameter; surrogate ids are allocated from counters in the state.
-/

set_option linter.unusedVariables false

namespace PromptManager

/-- Status enum from `models/prompt.py` (`PROMPT_STATUS = ["draft", "active", "archived"]`);
"active" is the Live state of the spec. -/
inductive PromptStatus where
  | draft
  | active
  | archived
deriving DecidableEq, Repr

/-- Scalar JSON values stored in the `metadata` JSON column. -/
inductive JsonVal where
  | str (s : String)
  | num (n : Int)
  | boolean (b : Bool)
  | null
deriving DecidableEq, Repr

/-- A string-keyed metadata map, as the JSON object stored in the `metadata` column. -/
abbrev Meta := List (String × JsonVal)

/-- Lookup in a metadata map (first binding wins; well-formed maps have unique keys). -/
def dictLookup (m : Meta) (k : String) : Option JsonVal :=
  match m with
  | [] => none
  | (k2, v) :: rest => if k2 = k then some v else dictLookup rest k

/-- Python dict equality on metadata maps: both contain exactly the same key/value pairs. -/
def dictEq (a b : Meta) : Bool :=
  a.all (fun kv => dictLookup b kv.1 == some kv.2) &&
  b.all (fun kv => dictLookup a kv.1 == some kv.2)

/-- Python `set(xs) == set(ys)` on tag lists, as used by `update_prompt` in crud.py. -/
def setEq (a b : List String) : Bool :=
  a.all (fun x => b.contains x) && b.all (fun x => a.contains x)

/-- One row of the `prompts` table (`class Prompt` in models/prompt.py). -/
structure PromptRow where
  id : Nat
  name : String
  version : String
  content : String
  description : Option String
  status : PromptStatus
  is_active : Bool
  tags : List String
  metadata_ : Meta
  created_by : String
  created_at : Nat
  updated_at : Nat
deriving DecidableEq, Repr

/-- Structured form of the `changes` dict that each crud.py call site passes to
`_log_prompt_change`.  The source flattens `action` and `changes` into the string column
`change_reason` (`f"{action}: {changes}"`); we keep the same data unflattened, one
constructor per call-site shape. -/
inductive Changes where
  | createStatusDraft
  | updateDiffs (content : Option (String × String))
      (description : Option (Option String × String))
      (tags : Option (List String × List String))
      (metadata : Option (Meta × Meta))
  | deleteStatus (st : PromptStatus)
  | autoArchivedReplacedBy (v : String)
deriving DecidableEq, Repr

/-- One row of the `prompt_history` table (`class PromptHistory` in models/prompt.py).
`action` and `changes` together are the `change_reason` column, see `Changes`. -/
structure HistoryRow where
  id : Nat
  prompt_id : Nat
  version : String
  content : String
  description : Option String
  status : PromptStatus
  tags : List String
  metadata_ : Meta
  changed_by : String
  changed_at : Nat
  action : String
  changes : Option Changes
deriving DecidableEq, Repr

/-- The persistent store: both tables plus the id sequences. -/
structure DB where
  prompts : List PromptRow
  history : List HistoryRow
  nextPromptId : Nat
  nextHistoryId : Nat
deriving DecidableEq, Repr

/-- A SQLAlchemy session over the store: the last committed state and the pending
working state (committed state plus the session's uncommitted changes). -/
structure Session where
  committed : DB
  pending : DB
deriving DecidableEq, Repr

/-- One session interaction: an ORM mutation/insert (visible only to the pending state)
or a `db.commit()` publishing the pending state. -/
inductive Step where
  | mutate (f : DB → DB)
  | commit

def Step.applyStep (st : Step) (s : Session) : Session :=
  match st with
  | .mutate f => { s with pending := f s.pending }
  | .commit => { committed := s.pending, pending := s.pending }

/-- Run a list of session steps.  Stopping after a prefix models a mid-operation
failure: pending changes are rolled back, `committed` is what remains observable. -/
def runSteps (steps : List Step) (s : Session) : Session :=
  steps.foldl (fun s st => st.applyStep s) s

/-- Committed state observable after the first `k` steps of an operation started on a
clean session over `db`. -/
def committedAfter (steps : List Step) (db : DB) (k : Nat) : DB :=
  (runSteps (steps.take k) { committed := db, pending := db }).committed

/-! ### Read operations (crud.py) -/

/-- Embeds `crud.get_prompt`: first row with the given id. -/
def get_prompt (db : DB) (prompt_id : Nat) : Option PromptRow :=
  db.prompts.find? (fun p => p.id == prompt_id)

/-- Embeds `crud.get_prompt_version`: row with the given (name, version). -/
def get_prompt_version (db : DB) (name version : String) : Option PromptRow :=
  db.prompts.find? (fun p => p.name == name && p.version == version)

/-- Lexicographic comparison of character lists, modelling SQLite's default BINARY
collation used by `ORDER BY version` (byte order of the UTF-8 encoding, which agrees
with codepoint order). -/
def charListLt : List Char → List Char → Bool
  | _, [] => false
  | [], _ :: _ => true
  | a :: as, b :: bs => if a < b then true else if b < a then false else charListLt as bs

/-- String comparison used by the store for `ORDER BY version`. -/
def stringLt (a b : String) : Bool :=
  charListLt a.data b.data

/-- Embeds `crud.get_latest_prompt_version`: rows of the name ordered by the `version` string
descending, first row — i.e. the row whose version string is maximal (earliest such row
on ties, which cannot happen while (name, version) is unique). -/
def get_latest_prompt_version (db : DB) (name : String) : Option PromptRow :=
  (db.prompts.filter (fun p => p.name == name)).foldl
    (fun acc p =>
      match acc with
      | none => some p
      | some q => if stringLt q.version p.version then some p else some q)
    none

/-! ### Mutation primitives -/

/-- An ORM field update on the row with the given primary key. -/
def updateRowById (l : List PromptRow) (pid : Nat) (f : PromptRow → PromptRow) :
    List PromptRow :=
  l.map (fun p => if p.id == pid then f p else p)

/-- The archival field assignment (status=archived, is_active=False, updated_at=now),
as applied by `set_active_version` to the superseded row and by `delete_prompt`. -/
def archFields (now : Nat) (p : PromptRow) : PromptRow :=
  { p with status := .archived, is_active := false, updated_at := now }

/-- The activation field assignment (is_active=True, status=active, updated_at=now). -/
def activeFields (now : Nat) (p : PromptRow) : PromptRow :=
  { p with status := .active, is_active := true, updated_at := now }

/-- The archival mutation of `set_active_version` on the previously active row. -/
def archiveRow (db : DB) (pid : Nat) (now : Nat) : DB :=
  { db with prompts := updateRowById db.prompts pid (archFields now) }

/-- The activation mutation of `set_active_version` on the target row. -/
def activateRow (db : DB) (pid : Nat) (now : Nat) : DB :=
  { db with prompts := updateRowById db.prompts pid (activeFields now) }

/-- Embeds `crud._log_prompt_change` up to its own `db.commit()`: re-query the prompt, snapshot
its current (pending) state into a new history row; if the prompt is absent, warn and
write nothing. -/
def log_prompt_change (db : DB) (prompt_id : Nat) (version changed_by action : String)
    (changes : Option Changes) (now : Nat) : DB :=
  match get_prompt db prompt_id with
  | none => db
  | some p =>
      { db with
        history := db.history ++
          [{ id := db.nextHistoryId, prompt_id := prompt_id, version := version,
             content := p.content, description := p.description, status := p.status,
             tags := p.tags, metadata_ := p.metadata_, changed_by := changed_by,
             changed_at := now, action := action, changes := changes }],
        nextHistoryId := db.nextHistoryId + 1 }

/-! ### create_prompt -/

/-- The payload of `schemas.PromptCreate`. -/
structure PromptCreate where
  name : String
  version : String
  content : String
  description : Option String
  tags : List String
  metadata_ : Meta
deriving DecidableEq, Repr

/-- The row inserted by `crud.create_prompt`: always Draft and inactive. -/
def mkPromptRow (id : Nat) (pc : PromptCreate) (created_by : String) (now : Nat) :
    PromptRow :=
  { id := id, name := pc.name, version := pc.version, content := pc.content,
    description := pc.description, status := .draft, is_active := false,
    tags := pc.tags, metadata_ := pc.metadata_, created_by := created_by,
    created_at := now, updated_at := now }

/-- Errors raised by the embedded operations (`ValueError` for a duplicate
(name, version) in `create_prompt`; `valueError` also stands for the `int()` failure
in the auto-version endpoint). -/
inductive CrudError where
  | duplicateVersion
  | valueError
deriving DecidableEq, Repr

deriving instance DecidableEq for Except

/-- Session steps of `crud.create_prompt` after its duplicate pre-check passed:
`db.add` + `db.flush` + `db.commit` for the row, then `_log_prompt_change`
(query, add history row, `db.commit`). -/
def create_prompt_steps (db0 : DB) (pc : PromptCreate) (created_by : String) (now : Nat) :
    List Step :=
  match get_prompt_version db0 pc.name pc.version with
  | some _ => []
  | none =>
      let nid := db0.nextPromptId
      [ .mutate (fun db =>
          { db with prompts := db.prompts ++ [mkPromptRow nid pc created_by now],
                    nextPromptId := db.nextPromptId + 1 }),
        .commit,
        .mutate (fun db =>
          log_prompt_change db nid pc.version created_by "create"
            (some .createStatusDraft) now),
        .commit ]

/-- Embeds `crud.create_prompt`, run to completion.  A duplicate (name, version) raises before
touching the session (a `ValueError` in the source); otherwise the final committed state
and the new row id are returned. -/
def create_prompt (db : DB) (pc : PromptCreate) (created_by : String) (now : Nat) :
    DB × Except CrudError Nat :=
  match get_prompt_version db pc.name pc.version with
  | some _ => (db, .error .duplicateVersion)
  | none =>
      ((runSteps (create_prompt_steps db pc created_by now)
          { committed := db, pending := db }).committed,
       .ok db.nextPromptId)

/-! ### set_active_version -/

/-- Session steps of `crud.set_active_version` on a loaded target row: query the
currently active other version; if present archive it and log `auto_archived`
(which commits), then activate the target, log `set_as_live_version` (which commits),
and finally `db.add` + `db.commit`. -/
def set_active_version_steps (db0 : DB) (target_id : Nat) (updated_by : String)
    (now : Nat) : List Step :=
  match get_prompt db0 target_id with
  | none => []
  | some t =>
      match db0.prompts.find?
          (fun p => p.name == t.name && p.is_active && p.id != target_id) with
      | some e =>
          [ .mutate (fun db => archiveRow db e.id now),
            .mutate (fun db =>
              log_prompt_change db e.id e.version "system" "auto_archived"
                (some (.autoArchivedReplacedBy t.version)) now),
            .commit,
            .mutate (fun db => activateRow db target_id now),
            .mutate (fun db =>
              log_prompt_change db target_id t.version updated_by "set_as_live_version"
                none now),
            .commit,
            .commit ]
      | none =>
          [ .mutate (fun db => activateRow db target_id now),
            .mutate (fun db =>
              log_prompt_change db target_id t.version updated_by "set_as_live_version"
                none now),
            .commit,
            .commit ]

/-- Embeds `crud.set_active_version`, run to completion (an absent target id cannot occur in
the source, which receives a loaded ORM row; it is a no-op here). -/
def set_active_version (db : DB) (target_id : Nat) (updated_by : String) (now : Nat) :
    DB :=
  (runSteps (set_active_version_steps db target_id updated_by now)
      { committed := db, pending := db }).committed

/-! ### update_prompt -/

/-- The payload of `schemas.PromptUpdate`; `none` means the field was not supplied. -/
structure PromptUpdate where
  content : Option String
  description : Option String
  tags : Option (List String)
  metadata_ : Option Meta
deriving DecidableEq, Repr

/-- Content diff detected by `crud.update_prompt`
(`prompt_update.content is not None and prompt_update.content != db_prompt.content`). -/
def contentDiff (p : PromptRow) (u : PromptUpdate) : Option (String × String) :=
  match u.content with
  | none => none
  | some c => if c ≠ p.content then some (p.content, c) else none

/-- Description diff (supplied description compared against the nullable current one). -/
def descriptionDiff (p : PromptRow) (u : PromptUpdate) : Option (Option String × String) :=
  match u.description with
  | none => none
  | some d => if some d ≠ p.description then some (p.description, d) else none

/-- Tags diff: the source compares tag lists as Python sets
(`set(prompt_update.tags or []) != set(db_prompt.tags or [])`). -/
def tagsDiff (p : PromptRow) (u : PromptUpdate) : Option (List String × List String) :=
  match u.tags with
  | none => none
  | some ts => if !(setEq ts p.tags) then some (p.tags, ts) else none

/-- Metadata diff: Python dict inequality. -/
def metadataDiff (p : PromptRow) (u : PromptUpdate) : Option (Meta × Meta) :=
  match u.metadata_ with
  | none => none
  | some m => if !(dictEq m p.metadata_) then some (p.metadata_, m) else none

/-- Whether `crud.update_prompt` records any change (`if changes:` in the source). -/
def updHasChanges (p : PromptRow) (u : PromptUpdate) : Bool :=
  (contentDiff p u).isSome || (descriptionDiff p u).isSome ||
  (tagsDiff p u).isSome || (metadataDiff p u).isSome

/-- The row after `crud.update_prompt` applies the detected field changes and bumps
`updated_at` (only reached when a change was detected). -/
def applyUpd (p : PromptRow) (u : PromptUpdate) (now : Nat) : PromptRow :=
  { p with
    content := match contentDiff p u with | some (_, c) => c | none => p.content,
    description := match descriptionDiff p u with
      | some (_, d) => some d
      | none => p.description,
    tags := match tagsDiff p u with | some (_, ts) => ts | none => p.tags,
    metadata_ := match metadataDiff p u with | some (_, m) => m | none => p.metadata_,
    updated_at := now }

/-- Embeds `crud.update_prompt`, run to completion: if no change is detected nothing is
written (no commit, no history, no `updated_at` bump); otherwise the fields and
`updated_at` are updated, committed, and one "update" history entry is written with the
old/new diffs. -/
def update_prompt (db : DB) (prompt_id : Nat) (u : PromptUpdate) (updated_by : String)
    (now : Nat) : DB :=
  match get_prompt db prompt_id with
  | none => db
  | some p =>
      if updHasChanges p u then
        let db1 : DB :=
          { db with prompts := (updateRowById db.prompts prompt_id
              (fun q => applyUpd q u now)) }
        log_prompt_change db1 prompt_id p.version updated_by "update"
          (some (.updateDiffs (contentDiff p u) (descriptionDiff p u) (tagsDiff p u)
            (metadataDiff p u))) now
      else db

/-! ### delete_prompt and hard_delete_prompt -/

/-- Embeds `crud.delete_prompt` (soft delete): first `_log_prompt_change` snapshots the row as
it still is and writes the "delete" history entry (with the pre-delete status in the
`changes` dict), then the row is archived and deactivated.  `updated_at` is bumped by
the column's `onupdate=datetime.utcnow` when the UPDATE is flushed. -/
def delete_prompt (db : DB) (prompt_id : Nat) (deleted_by : String) (now : Nat) : DB :=
  match get_prompt db prompt_id with
  | none => db
  | some p =>
      let db1 := log_prompt_change db prompt_id p.version deleted_by "delete"
        (some (.deleteStatus p.status)) now
      { db1 with prompts := updateRowById db1.prompts prompt_id (archFields now) }

/-- Embeds `crud.hard_delete_prompt`: a `db.delete` on the row.  The ORM relationship
`Prompt.history` is declared `cascade="all, delete-orphan"` (models/prompt.py) and the
foreign key has `ondelete="CASCADE"`, so deleting the row also deletes every history
row referencing it. -/
def hard_delete_prompt (db : DB) (prompt_id : Nat) : DB :=
  match get_prompt db prompt_id with
  | none => db
  | some _ =>
      { db with prompts := db.prompts.filter (fun p => !(p.id == prompt_id)),
                history := db.history.filter (fun h => !(h.prompt_id == prompt_id)) }

/-! ### The activation endpoint (api/v1/set_active_version.py and api/v1/api.py) -/

/-- Result of the activation endpoint: a 404, or the `PromptResponse` built from a row. -/
inductive ActivateResult where
  | notFound
  | response (p : PromptRow)
deriving DecidableEq, Repr

/-- The activation endpoint shared by `api/v1/set_active_version.py` and
`api/v1/api.py`: load by (name, version); 404 if absent; if the row is already active,
return it unchanged without touching the store; otherwise delegate to
`crud.set_active_version` and return the refreshed row. -/
def api_set_active_version (db : DB) (name version updated_by : String) (now : Nat) :
    DB × ActivateResult :=
  match get_prompt_version db name version with
  | none => (db, .notFound)
  | some p =>
      if p.is_active then (db, .response p)
      else
        let db2 := set_active_version db p.id updated_by now
        (db2,
         match get_prompt db2 p.id with
         | some q => .response q
         | none => .notFound)

/-! ### The auto-version endpoint (`update_with_auto_version` in api/v1/api.py) -/

/-- Python `str.split('.')` on a character list: maximal runs between dots, keeping
empty runs (`"".split('.') == [""]`, `"a..b".split('.') == ["a", "", "b"]`). -/
def splitDotChars : List Char → List String
  | [] => [""]
  | c :: rest =>
      let r := splitDotChars rest
      if c = '.' then "" :: r
      else
        match r with
        | [] => [String.mk [c]]
        | s :: ss => String.mk (c :: s.data) :: ss

/-- Python `version.split('.')`. -/
def pySplitDot (s : String) : List String :=
  splitDotChars s.data

/-- Strip leading and trailing whitespace (as the Python `int` builtin does). -/
def pyStrip (s : String) : String :=
  String.mk (((s.data.dropWhile fun c => c.isWhitespace).reverse.dropWhile
    (fun c => c.isWhitespace)).reverse)

/-- Decimal digit run parsed as a Nat (no sign). -/
def digitsToNat? (l : List Char) : Option Nat :=
  if !l.isEmpty && l.all (fun c => c.isDigit) then
    some (l.foldl (fun n c => n * 10 + (c.toNat - 48)) 0)
  else none

/-- Model of the Python builtin `int(str)`: optional surrounding whitespace, optional
sign, decimal digits; anything else raises `ValueError` (`none` here). -/
def pyInt? (s : String) : Option Int :=
  match (pyStrip s).data with
  | '-' :: rest => (digitsToNat? rest).map (fun n => -(n : Int))
  | '+' :: rest => (digitsToNat? rest).map (fun n => (n : Int))
  | l => (digitsToNat? l).map (fun n => (n : Int))

/-- The version computation of `update_with_auto_version` in api/v1/api.py: split the
current version on "."; with exactly three parts, `int(patch) + 1` (raising — `none` —
when the third part is not an integer); any other shape appends ".1". -/
def autoIncrementVersion (current : String) : Option String :=
  match pySplitDot current with
  | [major, minor, patch] =>
      (pyInt? patch).map (fun p => major ++ "." ++ minor ++ "." ++ toString (p + 1))
  | _ => some (current ++ ".1")

/-- Outcome of the new-version computation of the `update_with_auto_version` endpoint. -/
inductive AutoVersionResult where
  | notFound
  | intError
  | ok (v : String)
deriving DecidableEq, Repr

/-- The new version string computed by the `update_with_auto_version` endpoint: load the
base prompt (404 if absent), take `crud.get_latest_prompt_version` for its name (falling
back to the base prompt itself), and auto-increment that row's version string.  The
endpoint then creates the new prompt with this version via `crud.create_prompt`. -/
def update_with_auto_version (db : DB) (base_id : Nat) : AutoVersionResult :=
  match get_prompt db base_id with
  | none => .notFound
  | some bp =>
      let latest := (get_latest_prompt_version db bp.name).getD bp
      match autoIncrementVersion latest.version with
      | some v => .ok v
      | none => .intError

/-- Modelled from the spec (claim C6 wording), not from the source: the latest version
taken by creation order — creation timestamp, ties broken by id, descending. -/
def claimLatestByCreation (db : DB) (name : String) : Option PromptRow :=
  (db.prompts.filter (fun p => p.name == name)).foldl
    (fun acc p =>
      match acc with
      | none => some p
      | some q =>
          if q.created_at < p.created_at ||
             (q.created_at == p.created_at && q.id < p.id) then some p else some q)
    none

/-- Modelled from the spec (claim C6 wording), not from the source: increment the patch
component when the string parses as numeric major.minor.patch, otherwise append ".1". -/
def claimAutoIncrement (current : String) : String :=
  match pySplitDot current with
  | [major, minor, patch] =>
      match pyInt? major, pyInt? minor, pyInt? patch with
      | some _, some _, some p => major ++ "." ++ minor ++ "." ++ toString (p + 1)
      | _, _, _ => current ++ ".1"
  | _ => current ++ ".1"

/-- Modelled from the spec (claim C6 wording), not from the source: the whole
new-version computation as the claim states it. -/
def claimUpdateWithAutoVersion (db : DB) (base_id : Nat) : Option String :=
  match get_prompt db base_id with
  | none => none
  | some bp => (claimLatestByCreation db bp.name).map (fun l => claimAutoIncrement l.version)

/-! ### Engine operations as a transition system (for the Invariant-A claim) -/

/-- One committed engine operation. -/
inductive Op where
  | create (pc : PromptCreate) (created_by : String) (now : Nat)
  | update (prompt_id : Nat) (u : PromptUpdate) (updated_by : String) (now : Nat)
  | setActive (prompt_id : Nat) (updated_by : String) (now : Nat)
  | softDelete (prompt_id : Nat) (deleted_by : String) (now : Nat)
  | hardDelete (prompt_id : Nat)

/-- Apply one committed engine operation to the store. -/
def applyOp (db : DB) : Op → DB
  | .create pc created_by now => (create_prompt db pc created_by now).1
  | .update pid u updated_by now => update_prompt db pid u updated_by now
  | .setActive pid updated_by now => set_active_version db pid updated_by now
  | .softDelete pid deleted_by now => delete_prompt db pid deleted_by now
  | .hardDelete pid => hard_delete_prompt db pid

/-- Apply a sequence of committed engine operations. -/
def applyOps (db : DB) (ops : List Op) : DB :=
  ops.foldl applyOp db

/-- Invariant A: for each name, at most one version (row id) is active. -/
def UniqueActive (db : DB) : Prop :=
  ∀ p ∈ db.prompts, ∀ q ∈ db.prompts,
    p.name = q.name → p.is_active = true → q.is_active = true → p.id = q.id

instance : DecidablePred UniqueActive := fun db => by
  unfold UniqueActive; infer_instance

/-- Store well-formedness guaranteed by the primary key and the id sequence: row ids
are distinct and below the next id to be allocated. -/
def DB.WF (db : DB) : Prop :=
  (db.prompts.map (fun p => p.id)).Nodup ∧ ∀ p ∈ db.prompts, p.id < db.nextPromptId

instance : DecidablePred DB.WF := fun db => by
  unfold DB.WF; infer_instance

/-- The state right after `create_prompt` commits the new row (before the history
entry is written). -/
def inserted (db : DB) (pc : PromptCreate) (created_by : String) (now : Nat) : DB :=
  { db with prompts := db.prompts ++ [mkPromptRow db.nextPromptId pc created_by now],
            nextPromptId := db.nextPromptId + 1 }

/-- The intermediate committed state of `set_active_version`: the previously active
version `e` archived and its `auto_archived` history entry written, the target `t` not
yet touched. -/
def archIntermediate (db : DB) (e t : PromptRow) (now : Nat) : DB :=
  log_prompt_change (archiveRow db e.id now) e.id e.version "system" "auto_archived"
    (some (.autoArchivedReplacedBy t.version)) now

/-! ### Concrete sample states for witnesses and counterexamples -/

/-- A sample prompt row. -/
def sampleRow (id : Nat) (name version : String) (st : PromptStatus) (act : Bool)
    (created : Nat) : PromptRow :=
  { id := id, name := name, version := version, content := "content",
    description := none, status := st, is_active := act, tags := [], metadata_ := [],
    created_by := "creator", created_at := created, updated_at := created }

/-- Empty store. -/
def dbEmpty : DB :=
  { prompts := [], history := [], nextPromptId := 1, nextHistoryId := 1 }

/-- The Live version (id 1) of name "p". -/
def rowA : PromptRow := sampleRow 1 "p" "1.0.0" .active true 0

/-- The Draft version (id 2) of name "p". -/
def rowB : PromptRow := sampleRow 2 "p" "2.0.0" .draft false 1

/-- A name "p" with a Live version (id 1) and a Draft version (id 2). -/
def dbLive : DB :=
  { prompts := [rowA, rowB], history := [], nextPromptId := 3, nextHistoryId := 1 }

/-- Row `rowA` after being auto-archived at time 5. -/
def rowAArchived : PromptRow :=
  { rowA with status := .archived, is_active := false, updated_at := 5 }

/-- Row `rowB` after being set Live at time 5. -/
def rowBLive : PromptRow :=
  { rowB with status := .active, is_active := true, updated_at := 5 }

/-- A single already-active version of "p". -/
def dbOneActive : DB :=
  { prompts := [sampleRow 1 "p" "1.0.0" .active true 0],
    history := [], nextPromptId := 2, nextHistoryId := 1 }

/-- Two versions of "p" created out of version order: "2.0.0" first (created_at 1),
"1.0.0" second (created_at 2). -/
def dbVersions : DB :=
  { prompts := [sampleRow 1 "p" "2.0.0" .draft false 1,
                sampleRow 2 "p" "1.0.0" .draft false 2],
    history := [], nextPromptId := 3, nextHistoryId := 1 }

/-- One prompt together with a history row referencing it. -/
def dbWithHistory : DB :=
  { prompts := [sampleRow 1 "p" "1.0.0" .draft false 0],
    history := [{ id := 1, prompt_id := 1, version := "1.0.0", content := "content",
                  description := none, status := .draft, tags := [], metadata_ := [],
                  changed_by := "creator", changed_at := 0, action := "create",
                  changes := some .createStatusDraft }],
    nextPromptId := 2, nextHistoryId := 2 }

/-- A prompt row whose tag list is ["a", "b"]. -/
def rowTags : PromptRow :=
  { sampleRow 1 "p" "1.0.0" .draft false 0 with tags := ["a", "b"] }

/-- One prompt whose tag list is ["a", "b"]. -/
def dbTags : DB :=
  { prompts := [rowTags], history := [], nextPromptId := 2, nextHistoryId := 1 }

/-- An update payload supplying only new content. -/
def updNew : PromptUpdate :=
  { content := some "new", description := none, tags := none, metadata_ := none }

/-- The "update" history row written when `updNew` is applied to `rowTags` at time 9. -/
def updHistRow : HistoryRow :=
  { id := dbTags.nextHistoryId, prompt_id := 1, version := rowTags.version,
    content := (applyUpd rowTags updNew 9).content,
    description := (applyUpd rowTags updNew 9).description,
    status := (applyUpd rowTags updNew 9).status,
    tags := (applyUpd rowTags updNew 9).tags,
    metadata_ := (applyUpd rowTags updNew 9).metadata_,
    changed_by := "bob", changed_at := 9, action := "update",
    changes := some (.updateDiffs (contentDiff rowTags updNew)
      (descriptionDiff rowTags updNew) (tagsDiff rowTags updNew)
      (metadataDiff rowTags updNew)) }

/-- One already-archived prompt. -/
def dbArchived : DB :=
  { prompts := [sampleRow 1 "p" "1.0.0" .archived false 0],
    history := [], nextPromptId := 2, nextHistoryId := 1 }

/-- A sample creation payload. -/
def samplePC : PromptCreate :=
  { name := "p", version := "1.0.0", content := "content", description := none,
    tags := [], metadata_ := [] }

/-! ### Helper lemmas -/

theorem find?_eq_some_of_unique {α : Type} (p : α → Bool) (l : List α) (a : α)
    (ha : a ∈ l) (hpa : p a = true) (huniq : ∀ x ∈ l, p x = true → x = a) :
    l.find? p = some a := by
  induction l with
  | nil => cases ha
  | cons h t ih =>
      by_cases hph : p h = true
      · have he : h = a := huniq h (List.mem_cons_self h t) hph
        subst he
        exact List.find?_cons_of_pos _ hph
      · have hne : h ≠ a := fun he => hph (he ▸ hpa)
        have hat : a ∈ t := by
          rcases List.mem_cons.1 ha with h1 | h1
          · exact absurd h1.symm hne
          · exact h1
        rw [List.find?_cons_of_neg _ hph]
        exact ih hat (fun x hx hpx => huniq x (List.mem_cons_of_mem _ hx) hpx)

theorem map_id_nodup_inj {l : List PromptRow} (hn : (l.map (fun p => p.id)).Nodup)
    {a b : PromptRow} (ha : a ∈ l) (hb : b ∈ l) (hid : a.id = b.id) : a = b := by
  induction l with
  | nil => cases ha
  | cons h t ih =>
      simp only [List.map_cons, List.nodup_cons] at hn
      rcases List.mem_cons.1 ha with rfl | hat
      · rcases List.mem_cons.1 hb with rfl | hbt
        · rfl
        · exact absurd (hid ▸ List.mem_map_of_mem (fun p => p.id) hbt) hn.1
      · rcases List.mem_cons.1 hb with rfl | hbt
        · exact absurd (hid ▸ List.mem_map_of_mem (fun p => p.id) hat) hn.1
        · exact ih hn.2 hat hbt

theorem find?_id_of_nodup {l : List PromptRow} {a : PromptRow}
    (hn : (l.map (fun p => p.id)).Nodup) (ha : a ∈ l) :
    l.find? (fun p => p.id == a.id) = some a := by
  apply find?_eq_some_of_unique _ _ _ ha (by simp)
  intro x hx hpx
  exact map_id_nodup_inj hn hx ha (by simpa using hpx)

theorem mem_updateRowById {x : PromptRow} {l : List PromptRow} {pid : Nat}
    {f : PromptRow → PromptRow} :
    x ∈ updateRowById l pid f ↔ ∃ y ∈ l, x = if y.id == pid then f y else y := by
  simp only [updateRowById, List.mem_map]
  constructor
  · rintro ⟨y, hy, rfl⟩; exact ⟨y, hy, rfl⟩
  · rintro ⟨y, hy, rfl⟩; exact ⟨y, hy, rfl⟩

theorem find?_congr_pred {α : Type} {p q : α → Bool} (l : List α)
    (h : ∀ a ∈ l, p a = q a) : l.find? p = l.find? q := by
  induction l with
  | nil => rfl
  | cons x t ih =>
      have hx := h x (List.mem_cons_self x t)
      by_cases hp : p x = true
      · rw [List.find?_cons_of_pos _ hp, List.find?_cons_of_pos _ (hx ▸ hp)]
      · rw [List.find?_cons_of_neg _ hp, List.find?_cons_of_neg _ (hx ▸ hp)]
        exact ih (fun a ha => h a (List.mem_cons_of_mem _ ha))

theorem updateRowById_map_id {l : List PromptRow} {pid : Nat}
    {f : PromptRow → PromptRow} (hf : ∀ p, (f p).id = p.id) :
    (updateRowById l pid f).map (fun p => p.id) = l.map (fun p => p.id) := by
  unfold updateRowById
  rw [List.map_map]
  apply List.map_congr_left
  intro a _
  by_cases h2 : a.id = pid <;> simp [h2, hf]

theorem find?_id_updateRowById {l : List PromptRow} {pid : Nat}
    {f : PromptRow → PromptRow} {i : Nat} (hf : ∀ p, (f p).id = p.id) :
    (updateRowById l pid f).find? (fun p => p.id == i)
      = (l.find? (fun p => p.id == i)).map (fun p => if p.id == pid then f p else p) := by
  unfold updateRowById
  rw [List.find?_map]
  rw [find?_congr_pred l (q := fun p => p.id == i)]
  intro a _
  by_cases h2 : a.id = pid <;> simp [h2, hf, Function.comp]

@[simp] theorem log_prompt_change_prompts (db : DB) (pid : Nat)
    (v cb a : String) (ch : Option Changes) (now : Nat) :
    (log_prompt_change db pid v cb a ch now).prompts = db.prompts := by
  unfold log_prompt_change
  cases get_prompt db pid <;> rfl

@[simp] theorem log_prompt_change_nextPromptId (db : DB) (pid : Nat)
    (v cb a : String) (ch : Option Changes) (now : Nat) :
    (log_prompt_change db pid v cb a ch now).nextPromptId = db.nextPromptId := by
  unfold log_prompt_change
  cases get_prompt db pid <;> rfl

@[simp] theorem archiveRow_prompts (db : DB) (pid now : Nat) :
    (archiveRow db pid now).prompts = updateRowById db.prompts pid (archFields now) :=
  rfl

@[simp] theorem activateRow_history (db : DB) (pid now : Nat) :
    (activateRow db pid now).history = db.history := rfl

@[simp] theorem archiveRow_history (db : DB) (pid now : Nat) :
    (archiveRow db pid now).history = db.history := rfl

theorem create_prompt_eq_of_none {db : DB} {pc : PromptCreate} {cb : String} {now : Nat}
    (h : get_prompt_version db pc.name pc.version = none) :
    create_prompt db pc cb now =
      (log_prompt_change (inserted db pc cb now) db.nextPromptId pc.version cb "create"
        (some .createStatusDraft) now,
       .ok db.nextPromptId) := by
  unfold create_prompt create_prompt_steps
  rw [h]
  simp [runSteps, Step.applyStep, inserted]

theorem set_active_version_eq_of_some {db : DB} {tid : Nat} {ub : String} {now : Nat}
    {t e : PromptRow} (h1 : get_prompt db tid = some t)
    (h2 : db.prompts.find? (fun p => p.name == t.name && p.is_active && p.id != tid)
      = some e) :
    set_active_version db tid ub now =
      log_prompt_change (activateRow (archIntermediate db e t now) tid now) tid
        t.version ub "set_as_live_version" none now := by
  unfold set_active_version set_active_version_steps
  simp only [h1]
  simp only [h2]
  simp [runSteps, Step.applyStep, archIntermediate]

theorem set_active_version_eq_of_noneActive {db : DB} {tid : Nat} {ub : String}
    {now : Nat} {t : PromptRow} (h1 : get_prompt db tid = some t)
    (h2 : db.prompts.find? (fun p => p.name == t.name && p.is_active && p.id != tid)
      = none) :
    set_active_version db tid ub now =
      log_prompt_change (activateRow db tid now) tid t.version ub "set_as_live_version"
        none now := by
  unfold set_active_version set_active_version_steps
  simp only [h1]
  simp only [h2]
  simp [runSteps, Step.applyStep]

theorem set_active_version_eq_of_absent {db : DB} {tid : Nat} {ub : String} {now : Nat}
    (h1 : get_prompt db tid = none) :
    set_active_version db tid ub now = db := by
  unfold set_active_version set_active_version_steps
  simp only [h1]
  simp [runSteps, Step.applyStep]

/-! ### Claim C5 -/

/-- C5: activateVersion is idempotent on an already-Live target.  When the record the
activation endpoint resolves already has `is_active = true`, the endpoint returns that
record unchanged and leaves the store untouched — so no new HistoryEntry is written and
`updated_at` is unchanged. -/
theorem activate_already_live_noop (db : DB) (name version actor : String) (now : Nat)
    (p : PromptRow) (h : get_prompt_version db name version = some p)
    (hact : p.is_active = true) :
    api_set_active_version db name version actor now = (db, .response p) := by
  unfold api_set_active_version
  simp [h, hact]

theorem activate_already_live_noop_witness :
    get_prompt_version dbOneActive "p" "1.0.0"
      = some (sampleRow 1 "p" "1.0.0" .active true 0)
    ∧ (sampleRow 1 "p" "1.0.0" .active true 0).is_active = true
    ∧ api_set_active_version dbOneActive "p" "1.0.0" "alice" 5
      = (dbOneActive, .response (sampleRow 1 "p" "1.0.0" .active true 0)) :=
  ⟨by decide, by decide,
   activate_already_live_noop dbOneActive "p" "1.0.0" "alice" 5
     (sampleRow 1 "p" "1.0.0" .active true 0) (by decide) (by decide)⟩

/-! ### Claim C7 -/

/-- C7: two create calls with identical (name, version): the second call fails with the
duplicate-version error, and the store — including the record created by the first call
and its history — is exactly as the first call left it. -/
theorem create_duplicate_rejected (db db1 : DB) (pc pc2 : PromptCreate)
    (cb1 cb2 : String) (n1 n2 id1 : Nat)
    (h1 : create_prompt db pc cb1 n1 = (db1, .ok id1))
    (hname : pc2.name = pc.name) (hver : pc2.version = pc.version) :
    create_prompt db1 pc2 cb2 n2 = (db1, .error .duplicateVersion) := by
  cases hdup : get_prompt_version db pc.name pc.version with
  | some q =>
      rw [create_prompt, hdup] at h1
      cases h1
  | none =>
      rw [create_prompt_eq_of_none hdup] at h1
      have hdb1 : db1 = log_prompt_change (inserted db pc cb1 n1) db.nextPromptId
          pc.version cb1 "create" (some .createStatusDraft) n1 :=
        (congrArg Prod.fst h1).symm
      have hfound : get_prompt_version db1 pc2.name pc2.version
          = some (mkPromptRow db.nextPromptId pc cb1 n1) := by
        rw [hdb1]
        unfold get_prompt_version
        rw [log_prompt_change_prompts]
        show (db.prompts ++ [mkPromptRow db.nextPromptId pc cb1 n1]).find? _ = _
        rw [List.find?_append]
        unfold get_prompt_version at hdup
        rw [hname, hver, hdup]
        simp [mkPromptRow]
      rw [create_prompt, hfound]

theorem create_duplicate_rejected_witness :
    create_prompt dbEmpty samplePC "u" 0
      = ((create_prompt dbEmpty samplePC "u" 0).1, .ok 1)
    ∧ samplePC.name = samplePC.name ∧ samplePC.version = samplePC.version
    ∧ create_prompt (create_prompt dbEmpty samplePC "u" 0).1 samplePC "v" 7
      = ((create_prompt dbEmpty samplePC "u" 0).1, .error .duplicateVersion) :=
  ⟨by decide, rfl, rfl,
   create_duplicate_rejected dbEmpty (create_prompt dbEmpty samplePC "u" 0).1
     samplePC samplePC "u" "v" 0 7 1 (by decide) rfl rfl⟩

/-! ### Claim C10 -/

/-- C10 counterexample: soft-deleting an already-Archived version writes a "delete"
HistoryEntry whose status field is Archived — refuting "the entry's status field ...
(is) never Archived". -/
theorem soft_delete_archived_cex :
    (get_prompt dbArchived 1).isSome = true
    ∧ (delete_prompt dbArchived 1 "bob" 9).history.map (fun h => (h.action, h.status))
      = [("delete", PromptStatus.archived)] := by
  exact ⟨by decide, by decide⟩

/-- C10 amended: the "delete" HistoryEntry written by `delete_prompt` snapshots the
version's state as it was immediately before archiving — its status field records the
pre-delete status (which is Archived only when the version was already Archived),
because the history row is written before status=Archived and is_active=false are
applied. -/
theorem soft_delete_snapshot_pre_status (db : DB) (pid : Nat) (actor : String)
    (now : Nat) (p : PromptRow) (h : get_prompt db pid = some p) :
    (delete_prompt db pid actor now).history
      = db.history ++
        [{ id := db.nextHistoryId, prompt_id := pid, version := p.version,
           content := p.content, description := p.description, status := p.status,
           tags := p.tags, metadata_ := p.metadata_, changed_by := actor,
           changed_at := now, action := "delete",
           changes := some (.deleteStatus p.status) }] := by
  unfold delete_prompt
  rw [h]
  show (log_prompt_change db pid p.version actor "delete"
    (some (.deleteStatus p.status)) now).history = _
  unfold log_prompt_change
  rw [h]

theorem soft_delete_snapshot_pre_status_witness :
    get_prompt dbTags 1 = some rowTags
    ∧ (delete_prompt dbTags 1 "bob" 9).history
      = dbTags.history ++
        [{ id := 1, prompt_id := 1, version := "1.0.0", content := "content",
           description := none, status := .draft, tags := ["a", "b"], metadata_ := [],
           changed_by := "bob", changed_at := 9, action := "delete",
           changes := some (.deleteStatus .draft) }] :=
  ⟨by decide, soft_delete_snapshot_pre_status dbTags 1 "bob" 9 rowTags (by decide)⟩

/-! ### Claim C8 -/

theorem log_history_append (db : DB) (pid : Nat) (v cb a : String)
    (ch : Option Changes) (now : Nat) :
    ∃ t, (log_prompt_change db pid v cb a ch now).history = db.history ++ t := by
  unfold log_prompt_change
  cases get_prompt db pid with
  | none => exact ⟨[], by simp⟩
  | some p => exact ⟨_, rfl⟩

/-- C8 counterexample: hard-deleting a PromptVersion does not leave the HistoryEntry
rows that reference it in place — the ORM cascade deletes them with the row. -/
theorem hard_delete_cascade_cex :
    dbWithHistory.history.map (fun h => h.prompt_id) = [1]
    ∧ (get_prompt dbWithHistory 1).isSome = true
    ∧ (hard_delete_prompt dbWithHistory 1).history = [] := by
  exact ⟨by decide, by decide, by decide⟩

/-- C8 amended: history rows are append-only under create, update, activate and soft
delete — none of these operations mutates or deletes an existing history row; hard
delete, however, cascades: it removes every history row referencing the deleted
version (ORM `cascade="all, delete-orphan"` / FK `ondelete="CASCADE"`), keeping only
the rows that reference other versions. -/
theorem history_append_only_except_hard_delete :
    (∀ db pc cb now, ∃ t, ((create_prompt db pc cb now).1).history = db.history ++ t)
    ∧ (∀ db pid u ub now, ∃ t,
        (update_prompt db pid u ub now).history = db.history ++ t)
    ∧ (∀ db tid ub now, ∃ t,
        (set_active_version db tid ub now).history = db.history ++ t)
    ∧ (∀ db pid dby now, ∃ t,
        (delete_prompt db pid dby now).history = db.history ++ t)
    ∧ (∀ db pid p, get_prompt db pid = some p →
        (hard_delete_prompt db pid).history
          = db.history.filter (fun h => !(h.prompt_id == pid))) := by
  refine ⟨?_, ?_, ?_, ?_, ?_⟩
  · intro db pc cb now
    cases hdup : get_prompt_version db pc.name pc.version with
    | some q => rw [create_prompt, hdup]; exact ⟨[], by simp⟩
    | none =>
        rw [create_prompt_eq_of_none hdup]
        have h := log_history_append (inserted db pc cb now) db.nextPromptId pc.version
          cb "create" (some .createStatusDraft) now
        simpa [inserted] using h
  · intro db pid u ub now
    unfold update_prompt
    cases h : get_prompt db pid with
    | none => exact ⟨[], by simp⟩
    | some p =>
        by_cases hc : updHasChanges p u
        · simp only [hc, if_pos]
          have h2 := log_history_append
            { db with prompts := (updateRowById db.prompts pid (fun q => applyUpd q u now)) }
            pid p.version ub "update"
            (some (.updateDiffs (contentDiff p u) (descriptionDiff p u) (tagsDiff p u)
              (metadataDiff p u))) now
          simpa using h2
        · simp only [hc, if_neg]
          exact ⟨[], by simp⟩
  · intro db tid ub now
    cases h1 : get_prompt db tid with
    | none => rw [set_active_version_eq_of_absent h1]; exact ⟨[], by simp⟩
    | some t =>
        cases h2 : db.prompts.find?
            (fun p => p.name == t.name && p.is_active && p.id != tid) with
        | some e =>
            rw [set_active_version_eq_of_some h1 h2]
            obtain ⟨t1, ht1⟩ := log_history_append (archiveRow db e.id now) e.id e.version
              "system" "auto_archived" (some (.autoArchivedReplacedBy t.version)) now
            obtain ⟨t2, ht2⟩ := log_history_append
              (activateRow (archIntermediate db e t now) tid now) tid t.version ub
              "set_as_live_version" none now
            refine ⟨t1 ++ t2, ?_⟩
            rw [ht2]
            have : (activateRow (archIntermediate db e t now) tid now).history
                = db.history ++ t1 := by
              rw [activateRow_history]
              unfold archIntermediate
              rw [ht1, archiveRow_history]
            rw [this, List.append_assoc]
        | none =>
            rw [set_active_version_eq_of_noneActive h1 h2]
            obtain ⟨t2, ht2⟩ := log_history_append (activateRow db tid now) tid t.version
              ub "set_as_live_version" none now
            exact ⟨t2, by rw [ht2, activateRow_history]⟩
  · intro db pid dby now
    unfold delete_prompt
    cases h : get_prompt db pid with
    | none => exact ⟨[], by simp⟩
    | some p =>
        obtain ⟨t, ht⟩ := log_history_append db pid p.version dby "delete"
          (some (.deleteStatus p.status)) now
        exact ⟨t, ht⟩
  · intro db pid p h
    unfold hard_delete_prompt
    rw [h]

theorem history_append_only_except_hard_delete_witness :
    get_prompt dbWithHistory 1 = some (sampleRow 1 "p" "1.0.0" .draft false 0)
    ∧ (hard_delete_prompt dbWithHistory 1).history
      = dbWithHistory.history.filter (fun h => !(h.prompt_id == 1)) :=
  ⟨by decide,
   history_append_only_except_hard_delete.2.2.2.2 dbWithHistory 1
     (sampleRow 1 "p" "1.0.0" .draft false 0) (by decide)⟩

/-! ### Claim C9 -/

/-- C9 counterexample: supplying a tag list that is a permutation of the current tags
differs from the current value, yet `update_prompt` is a no-op — no `updated_at` bump
and no HistoryEntry — because the source compares tag lists as Python sets. -/
theorem update_tags_permutation_cex :
    (get_prompt dbTags 1).map (fun p => p.tags) = some ["a", "b"]
    ∧ (["b", "a"] : List String) ≠ ["a", "b"]
    ∧ update_prompt dbTags 1
        { content := none, description := none, tags := some ["b", "a"],
          metadata_ := none } "bob" 9 = dbTags := by
  exact ⟨by decide, by decide, by decide⟩

/-- C9 amended: `update_prompt` is a no-op exactly when it detects no change under the
source's comparisons — literal equality for content and description, Python-dict
equality for metadata, and set equality for tags (so a supplied tag list that is a
permutation of the current tags counts as no change).  Otherwise it applies the changed
fields, sets `updated_at` to now, and writes exactly one HistoryEntry with action
"update" carrying the old/new diffs. -/
theorem update_noop_or_single_entry (db : DB) (pid : Nat) (u : PromptUpdate)
    (ub : String) (now : Nat) (p : PromptRow) (h : get_prompt db pid = some p) :
    (updHasChanges p u = false → update_prompt db pid u ub now = db)
    ∧ (updHasChanges p u = true →
        (update_prompt db pid u ub now).history
          = db.history ++
            [{ id := db.nextHistoryId, prompt_id := pid, version := p.version,
               content := (applyUpd p u now).content,
               description := (applyUpd p u now).description,
               status := (applyUpd p u now).status, tags := (applyUpd p u now).tags,
               metadata_ := (applyUpd p u now).metadata_, changed_by := ub,
               changed_at := now, action := "update",
               changes := some (.updateDiffs (contentDiff p u) (descriptionDiff p u)
                 (tagsDiff p u) (metadataDiff p u)) }]
        ∧ get_prompt (update_prompt db pid u ub now) pid = some (applyUpd p u now)) := by
  have hpid : (p.id == pid) = true := by simpa using List.find?_some h
  have hget1 : get_prompt
      { db with prompts := (updateRowById db.prompts pid (fun q => applyUpd q u now)) }
      pid = some (applyUpd p u now) := by
    show (updateRowById db.prompts pid (fun q => applyUpd q u now)).find?
      (fun q => q.id == pid) = _
    rw [find?_id_updateRowById (f := fun q => applyUpd q u now) (fun q => rfl)]
    unfold get_prompt at h
    rw [h]
    have hpe : p.id = pid := by simpa using hpid
    simp [hpe]
  constructor
  · intro hc
    unfold update_prompt
    rw [h]
    simp [hc]
  · intro hc
    unfold update_prompt
    rw [h]
    simp only [hc, if_pos]
    constructor
    · unfold log_prompt_change
      rw [hget1]
    · have hpr : (log_prompt_change
          { db with prompts := (updateRowById db.prompts pid (fun q => applyUpd q u now)) }
          pid p.version ub "update"
          (some (.updateDiffs (contentDiff p u) (descriptionDiff p u) (tagsDiff p u)
            (metadataDiff p u))) now).prompts
          = (updateRowById db.prompts pid (fun q => applyUpd q u now)) := by
        rw [log_prompt_change_prompts]
      show (log_prompt_change _ pid p.version ub "update" _ now).prompts.find? _ = _
      rw [hpr]
      have := hget1
      unfold get_prompt at this
      exact this

theorem update_noop_or_single_entry_witness :
    get_prompt dbTags 1 = some rowTags
    ∧ ((updHasChanges rowTags updNew = false →
          update_prompt dbTags 1 updNew "bob" 9 = dbTags)
       ∧ (updHasChanges rowTags updNew = true →
          (update_prompt dbTags 1 updNew "bob" 9).history
            = dbTags.history ++ [updHistRow]
          ∧ get_prompt (update_prompt dbTags 1 updNew "bob" 9) 1
            = some (applyUpd rowTags updNew 9))) :=
  ⟨by decide, update_noop_or_single_entry dbTags 1 updNew "bob" 9 rowTags (by decide)⟩

/-! ### Claim C6 -/

theorem charListLt_cons_iff {x y : Char} {xs ys : List Char} :
    charListLt (x :: xs) (y :: ys) = true
      ↔ x < y ∨ (x = y ∧ charListLt xs ys = true) := by
  show (if x < y then true else if y < x then false else charListLt xs ys) = true ↔ _
  by_cases h1 : x < y
  · simp [h1]
  · by_cases h2 : y < x
    · have hne : x ≠ y := fun he => lt_irrefl y (he ▸ h2)
      simp [h1, h2, hne]
    · have he : x = y := le_antisymm (le_of_not_lt h2) (le_of_not_lt h1)
      simp [h1, h2, he]

theorem charListLt_irrefl : ∀ l : List Char, charListLt l l = false
  | [] => rfl
  | c :: t => by
      rw [Bool.eq_false_iff]
      intro h
      rcases charListLt_cons_iff.1 h with h1 | ⟨_, h2⟩
      · exact lt_irrefl _ h1
      · rw [charListLt_irrefl t] at h2
        cases h2

theorem charListLt_trans : ∀ {a b c : List Char}, charListLt a b = true →
    charListLt b c = true → charListLt a c = true
  | [], [], _, hab, _ => by cases hab
  | [], _ :: _, [], _, hbc => by cases hbc
  | [], _ :: _, _ :: _, _, _ => rfl
  | _ :: _, [], _, hab, _ => by cases hab
  | _ :: _, _ :: _, [], _, hbc => by cases hbc
  | x :: xs, y :: ys, z :: zs, hab, hbc => by
      rcases charListLt_cons_iff.1 hab with h1 | ⟨rfl, h1⟩ <;>
        rcases charListLt_cons_iff.1 hbc with h2 | ⟨rfl, h2⟩
      · exact charListLt_cons_iff.2 (Or.inl (lt_trans h1 h2))
      · exact charListLt_cons_iff.2 (Or.inl h1)
      · exact charListLt_cons_iff.2 (Or.inl h2)
      · exact charListLt_cons_iff.2 (Or.inr ⟨rfl, charListLt_trans h1 h2⟩)

theorem charListLt_connex : ∀ {a b : List Char}, charListLt a b = false →
    charListLt b a = false → a = b
  | [], [], _, _ => rfl
  | [], _ :: _, hab, _ => by cases hab
  | _ :: _, [], _, hba => by cases hba
  | x :: xs, y :: ys, hab, hba => by
      rw [Bool.eq_false_iff] at hab hba
      by_cases h1 : x < y
      · exact absurd (charListLt_cons_iff.2 (Or.inl h1)) hab
      · by_cases h2 : y < x
        · exact absurd (charListLt_cons_iff.2 (Or.inl h2)) hba
        · have he : x = y := le_antisymm (le_of_not_lt h2) (le_of_not_lt h1)
          subst he
          have hxs : charListLt xs ys = false := by
            rw [Bool.eq_false_iff]
            intro h
            exact hab (charListLt_cons_iff.2 (Or.inr ⟨rfl, h⟩))
          have hys : charListLt ys xs = false := by
            rw [Bool.eq_false_iff]
            intro h
            exact hba (charListLt_cons_iff.2 (Or.inr ⟨rfl, h⟩))
          rw [charListLt_connex hxs hys]

theorem stringLt_irrefl (s : String) : stringLt s s = false :=
  charListLt_irrefl s.data

theorem stringLt_trans {a b c : String} (h1 : stringLt a b = true)
    (h2 : stringLt b c = true) : stringLt a c = true :=
  charListLt_trans h1 h2

theorem stringLt_connex {a b : String} (h1 : stringLt a b = false)
    (h2 : stringLt b a = false) : a = b := by
  cases a; cases b
  exact congrArg String.mk (charListLt_connex h1 h2)

theorem foldl_maxVersion {xs : List PromptRow} {m r : PromptRow}
    (h : xs.foldl (fun acc p =>
        match acc with
        | none => some p
        | some q => if stringLt q.version p.version then some p else some q) (some m)
      = some r) :
    (r = m ∨ r ∈ xs) ∧ stringLt r.version m.version = false
      ∧ ∀ q ∈ xs, stringLt r.version q.version = false := by
  induction xs generalizing m with
  | nil =>
      simp only [List.foldl_nil, Option.some.injEq] at h
      exact ⟨Or.inl h.symm, by rw [h]; exact stringLt_irrefl _, by simp⟩
  | cons x t ih =>
      simp only [List.foldl_cons] at h
      by_cases hc : stringLt m.version x.version = true
      · rw [if_pos hc] at h
        obtain ⟨hmem, hx, hall⟩ := ih h
        refine ⟨?_, ?_, ?_⟩
        · rcases hmem with rfl | hmem
          · exact Or.inr (List.mem_cons_self _ _)
          · exact Or.inr (List.mem_cons_of_mem _ hmem)
        · rw [Bool.eq_false_iff]
          intro hlt
          rw [stringLt_trans hlt hc] at hx
          cases hx
        · intro q hq
          rcases List.mem_cons.1 hq with rfl | hq
          · exact hx
          · exact hall q hq
      · rw [if_neg hc] at h
        obtain ⟨hmem, hm, hall⟩ := ih h
        have hc2 : stringLt m.version x.version = false := Bool.of_not_eq_true hc
        refine ⟨?_, hm, ?_⟩
        · rcases hmem with rfl | hmem
          · exact Or.inl rfl
          · exact Or.inr (List.mem_cons_of_mem _ hmem)
        · intro q hq
          rcases List.mem_cons.1 hq with rfl | hq
          · rw [Bool.eq_false_iff]
            intro hlt
            by_cases hxm : stringLt q.version m.version = true
            · rw [stringLt_trans hlt hxm] at hm
              cases hm
            · have := stringLt_connex (Bool.of_not_eq_true hxm) hc2
              rw [← this] at hm
              rw [hlt] at hm
              cases hm
          · exact hall q hq

/-- Theorem: `get_latest_prompt_version` returns a row of the given name whose version string is
maximal (under the store's string order) among that name's rows. -/
theorem get_latest_prompt_version_max (db : DB) (name : String) (l : PromptRow)
    (h : get_latest_prompt_version db name = some l) :
    l ∈ db.prompts ∧ l.name = name
      ∧ ∀ q ∈ db.prompts, q.name = name → stringLt l.version q.version = false := by
  unfold get_latest_prompt_version at h
  cases hf : db.prompts.filter (fun p => p.name == name) with
  | nil => rw [hf] at h; cases h
  | cons y ys =>
      rw [hf] at h
      simp only [List.foldl_cons] at h
      obtain ⟨hmem, hy, hall⟩ := foldl_maxVersion h
      have hlf : l ∈ db.prompts.filter (fun p => p.name == name) := by
        rw [hf]
        rcases hmem with rfl | hmem
        · exact List.mem_cons_self _ _
        · exact List.mem_cons_of_mem _ hmem
      refine ⟨List.mem_of_mem_filter hlf, ?_, ?_⟩
      · have := List.of_mem_filter hlf
        simpa using this
      · intro q hq hqn
        have hqf : q ∈ db.prompts.filter (fun p => p.name == name) :=
          List.mem_filter.2 ⟨hq, by simpa using hqn⟩
        rw [hf] at hqf
        rcases List.mem_cons.1 hqf with rfl | hqf
        · exact hy
        · exact hall q hqf

/-- C6 counterexample: with versions of "p" created out of version-string order
("2.0.0" created before "1.0.0"), the endpoint increments "2.0.0" (the maximum by
version-string order), not "1.0.0" (the latest by creation order) as the claim states;
and on a three-part version with a non-numeric patch the endpoint fails instead of
appending ".1". -/
theorem auto_version_cex :
    update_with_auto_version dbVersions 1 = .ok "2.0.1"
    ∧ claimUpdateWithAutoVersion dbVersions 1 = some "1.0.1"
    ∧ ("2.0.1" : String) ≠ "1.0.1"
    ∧ autoIncrementVersion "1.2.x" = none
    ∧ claimAutoIncrement "1.2.x" = "1.2.x.1" := by
  exact ⟨by decide, by decide, by decide, by decide, by decide⟩

/-- C6 amended: the update-version endpoint takes the latest existing version for the
base prompt's name by descending version-string order (not creation order); if that
string splits on "." into exactly three components, the third is parsed with `int` and
incremented (e.g. "2.3.4" yields "2.3.5"), the parse failing on a non-integer third
component; if it does not split into exactly three components, ".1" is appended to the
raw string (e.g. "beta" yields "beta.1"). -/
theorem auto_version_characterization (db : DB) (base_id : Nat) (bp latest : PromptRow)
    (hbp : get_prompt db base_id = some bp)
    (hl : get_latest_prompt_version db bp.name = some latest) :
    (latest ∈ db.prompts ∧ latest.name = bp.name
      ∧ ∀ q ∈ db.prompts, q.name = bp.name → stringLt latest.version q.version = false)
    ∧ (∀ a b c, pySplitDot latest.version = [a, b, c] →
        ∀ n, pyInt? c = some n →
          update_with_auto_version db base_id
            = .ok (a ++ "." ++ b ++ "." ++ toString (n + 1)))
    ∧ ((pySplitDot latest.version).length ≠ 3 →
        update_with_auto_version db base_id = .ok (latest.version ++ ".1"))
    ∧ (∀ a b c, pySplitDot latest.version = [a, b, c] → pyInt? c = none →
        update_with_auto_version db base_id = .intError) := by
  have hmax := get_latest_prompt_version_max db bp.name latest hl
  have hrun : update_with_auto_version db base_id =
      match autoIncrementVersion latest.version with
      | some v => .ok v
      | none => .intError := by
    unfold update_with_auto_version
    simp only [hbp]
    simp only [hl, Option.getD_some]
  refine ⟨hmax, ?_, ?_, ?_⟩
  · intro a b c hsplit n hint
    rw [hrun]
    unfold autoIncrementVersion
    rw [hsplit]
    dsimp only
    rw [hint]
    rfl
  · intro hlen
    rw [hrun]
    unfold autoIncrementVersion
    rcases hs : pySplitDot latest.version with _ | ⟨a, _ | ⟨b, _ | ⟨c, _ | ⟨d, t⟩⟩⟩⟩
    · rfl
    · rfl
    · rfl
    · exact absurd (by rw [hs]; rfl) hlen
    · rfl
  · intro a b c hsplit hint
    rw [hrun]
    unfold autoIncrementVersion
    rw [hsplit]
    dsimp only
    rw [hint]
    rfl

theorem auto_version_characterization_witness :
    get_prompt dbVersions 1 = some (sampleRow 1 "p" "2.0.0" .draft false 1)
    ∧ get_latest_prompt_version dbVersions "p"
      = some (sampleRow 1 "p" "2.0.0" .draft false 1)
    ∧ ((sampleRow 1 "p" "2.0.0" .draft false 1) ∈ dbVersions.prompts
        ∧ (sampleRow 1 "p" "2.0.0" .draft false 1).name
          = (sampleRow 1 "p" "2.0.0" .draft false 1).name
        ∧ ∀ q ∈ dbVersions.prompts,
            q.name = (sampleRow 1 "p" "2.0.0" .draft false 1).name →
            stringLt (sampleRow 1 "p" "2.0.0" .draft false 1).version q.version = false)
    ∧ (∀ a b c, pySplitDot (sampleRow 1 "p" "2.0.0" .draft false 1).version = [a, b, c] →
        ∀ n, pyInt? c = some n →
          update_with_auto_version dbVersions 1
            = .ok (a ++ "." ++ b ++ "." ++ toString (n + 1)))
    ∧ ((pySplitDot (sampleRow 1 "p" "2.0.0" .draft false 1).version).length ≠ 3 →
        update_with_auto_version dbVersions 1
          = .ok ((sampleRow 1 "p" "2.0.0" .draft false 1).version ++ ".1"))
    ∧ (∀ a b c, pySplitDot (sampleRow 1 "p" "2.0.0" .draft false 1).version = [a, b, c] →
        pyInt? c = none → update_with_auto_version dbVersions 1 = .intError) := by
  refine ⟨by decide, by decide, ?_⟩
  have h := auto_version_characterization dbVersions 1
    (sampleRow 1 "p" "2.0.0" .draft false 1) (sampleRow 1 "p" "2.0.0" .draft false 1)
    (by decide) (by decide)
  exact ⟨h.1, h.2.1, h.2.2.1, h.2.2.2⟩

/-! ### Claim C3 -/

/-- C3 counterexample: stopping `create_prompt` right after its first `db.commit()`
(i.e. before `_log_prompt_change` commits) leaves a committed state in which the new
row persists but no HistoryEntry at all — refuting "either both the row and its
history entry persist, or neither does". -/
theorem create_commit_gap_cex :
    (get_prompt_version
        (committedAfter (create_prompt_steps dbEmpty samplePC "u" 0) dbEmpty 2)
        "p" "1.0.0").isSome = true
    ∧ (committedAfter (create_prompt_steps dbEmpty samplePC "u" 0) dbEmpty 2).history
      = [] := by
  exact ⟨by decide, by decide⟩

/-- C3 amended: `create_prompt` is not atomic with its audit record — the row commits
first and the "create" HistoryEntry in a separate, later commit.  Every committed state
observable while the operation runs is the initial state, the state with the row but no
new history entry, or the final state with both; in particular the history entry never
persists without the row, but the row can persist without the history entry, and a
completed call persists both. -/
theorem create_prompt_staged (db : DB) (pc : PromptCreate) (cb : String) (now : Nat)
    (hdup : get_prompt_version db pc.name pc.version = none)
    (hwf : ∀ p ∈ db.prompts, p.id < db.nextPromptId) :
    (∀ k, committedAfter (create_prompt_steps db pc cb now) db k = db
        ∨ committedAfter (create_prompt_steps db pc cb now) db k = inserted db pc cb now
        ∨ committedAfter (create_prompt_steps db pc cb now) db k
            = (create_prompt db pc cb now).1)
    ∧ (inserted db pc cb now).history = db.history
    ∧ get_prompt_version (inserted db pc cb now) pc.name pc.version
        = some (mkPromptRow db.nextPromptId pc cb now)
    ∧ (create_prompt db pc cb now).1.history
        = db.history ++
          [{ id := db.nextHistoryId, prompt_id := db.nextPromptId,
             version := pc.version, content := pc.content,
             description := pc.description, status := .draft, tags := pc.tags,
             metadata_ := pc.metadata_, changed_by := cb, changed_at := now,
             action := "create", changes := some .createStatusDraft }]
    ∧ get_prompt_version ((create_prompt db pc cb now).1) pc.name pc.version
        = some (mkPromptRow db.nextPromptId pc cb now) := by
  have hnone : db.prompts.find? (fun p => p.name == pc.name && p.version == pc.version)
      = none := hdup
  have hvfind : get_prompt_version (inserted db pc cb now) pc.name pc.version
      = some (mkPromptRow db.nextPromptId pc cb now) := by
    unfold get_prompt_version inserted
    show (db.prompts ++ [mkPromptRow db.nextPromptId pc cb now]).find? _ = _
    rw [List.find?_append, hnone]
    simp [mkPromptRow]
  have hnoid : db.prompts.find? (fun p => p.id == db.nextPromptId) = none := by
    rw [List.find?_eq_none]
    intro p hp
    simpa using Nat.ne_of_lt (hwf p hp)
  have hgp : get_prompt (inserted db pc cb now) db.nextPromptId
      = some (mkPromptRow db.nextPromptId pc cb now) := by
    unfold get_prompt inserted
    show (db.prompts ++ [mkPromptRow db.nextPromptId pc cb now]).find? _ = _
    rw [List.find?_append, hnoid]
    simp [mkPromptRow]
  have hfinal : (create_prompt db pc cb now).1
      = log_prompt_change (inserted db pc cb now) db.nextPromptId pc.version cb
          "create" (some .createStatusDraft) now := by
    rw [create_prompt_eq_of_none hdup]
  have hsteps : create_prompt_steps db pc cb now =
      [ .mutate (fun db2 =>
          { db2 with prompts := db2.prompts ++ [mkPromptRow db.nextPromptId pc cb now],
                     nextPromptId := db2.nextPromptId + 1 }),
        .commit,
        .mutate (fun db2 =>
          log_prompt_change db2 db.nextPromptId pc.version cb "create"
            (some .createStatusDraft) now),
        .commit ] := by
    unfold create_prompt_steps
    rw [hdup]
  refine ⟨?_, rfl, hvfind, ?_, ?_⟩
  · intro k
    rcases k with _ | _ | _ | _ | n
    · exact Or.inl rfl
    · left
      simp [committedAfter, hsteps, runSteps, Step.applyStep]
    · right; left
      simp [committedAfter, hsteps, runSteps, Step.applyStep, inserted]
    · right; left
      simp [committedAfter, hsteps, runSteps, Step.applyStep, inserted]
    · right; right
      rw [hfinal]
      simp only [committedAfter, hsteps]
      rw [List.take_of_length_le (by simp)]
      simp [runSteps, Step.applyStep, inserted]
  · rw [hfinal]
    unfold log_prompt_change
    rw [hgp]
    simp [inserted, mkPromptRow]
  · rw [hfinal]
    unfold get_prompt_version
    rw [log_prompt_change_prompts]
    exact hvfind

theorem create_prompt_staged_witness :
    get_prompt_version dbEmpty samplePC.name samplePC.version = none
    ∧ (∀ p ∈ dbEmpty.prompts, p.id < dbEmpty.nextPromptId)
    ∧ ((∀ k, committedAfter (create_prompt_steps dbEmpty samplePC "u" 0) dbEmpty k
          = dbEmpty
        ∨ committedAfter (create_prompt_steps dbEmpty samplePC "u" 0) dbEmpty k
          = inserted dbEmpty samplePC "u" 0
        ∨ committedAfter (create_prompt_steps dbEmpty samplePC "u" 0) dbEmpty k
          = (create_prompt dbEmpty samplePC "u" 0).1)
      ∧ (inserted dbEmpty samplePC "u" 0).history = dbEmpty.history
      ∧ get_prompt_version (inserted dbEmpty samplePC "u" 0) samplePC.name
          samplePC.version = some (mkPromptRow dbEmpty.nextPromptId samplePC "u" 0)
      ∧ (create_prompt dbEmpty samplePC "u" 0).1.history
        = dbEmpty.history ++
          [{ id := dbEmpty.nextHistoryId, prompt_id := dbEmpty.nextPromptId,
             version := samplePC.version, content := samplePC.content,
             description := samplePC.description, status := .draft,
             tags := samplePC.tags, metadata_ := samplePC.metadata_,
             changed_by := "u", changed_at := 0, action := "create",
             changes := some .createStatusDraft }]
      ∧ get_prompt_version ((create_prompt dbEmpty samplePC "u" 0).1) samplePC.name
          samplePC.version = some (mkPromptRow dbEmpty.nextPromptId samplePC "u" 0)) :=
  ⟨by decide, by decide, create_prompt_staged dbEmpty samplePC "u" 0 (by decide)
    (by decide)⟩

/-! ### Claim C2 -/

/-- C2 counterexample: stopping `set_active_version` after the commit performed inside
the first `_log_prompt_change` call leaves a committed state in which the prior Live
version (id 1) has been archived (status=Archived, is_active=false) while the target
(id 2) has not been set Live — the partial hand-off the claim says is never
observable. -/
theorem activation_handoff_gap_cex :
    ((get_prompt (committedAfter (set_active_version_steps dbLive 2 "alice" 5) dbLive 3)
        1).map (fun p => (p.status, p.is_active))) = some (.archived, false)
    ∧ ((get_prompt (committedAfter (set_active_version_steps dbLive 2 "alice" 5) dbLive
        3) 2).map (fun p => p.is_active)) = some false := by
  exact ⟨by decide, by decide⟩

/-- C2 amended: `set_active_version` is not a single atomic transaction — it commits in
two stages (`_log_prompt_change` commits internally).  When a prior Live version `e`
exists for the target's name, the archival of `e` together with its `auto_archived`
HistoryEntry commits before the target is set Live, so a failure between the two
commits leaves exactly that partial hand-off observable: `e` archived and inactive
with its history entry written, the target unchanged (not Live).  Every observable
committed state is the initial state, this archived-intermediate state, or the final
fully handed-off state. -/
theorem set_active_version_staged (db : DB) (tid : Nat) (ub : String) (now : Nat)
    (t e : PromptRow) (hn : (db.prompts.map (fun p => p.id)).Nodup)
    (h1 : get_prompt db tid = some t)
    (h2 : db.prompts.find? (fun p => p.name == t.name && p.is_active && p.id != tid)
      = some e)
    (ht : t.is_active = false) :
    (∀ k, committedAfter (set_active_version_steps db tid ub now) db k = db
        ∨ committedAfter (set_active_version_steps db tid ub now) db k
            = archIntermediate db e t now
        ∨ committedAfter (set_active_version_steps db tid ub now) db k
            = set_active_version db tid ub now)
    ∧ get_prompt (archIntermediate db e t now) e.id
        = some { e with status := .archived, is_active := false, updated_at := now }
    ∧ get_prompt (archIntermediate db e t now) tid = some t
    ∧ (archIntermediate db e t now).history
        = db.history ++
          [{ id := db.nextHistoryId, prompt_id := e.id, version := e.version,
             content := e.content, description := e.description, status := .archived,
             tags := e.tags, metadata_ := e.metadata_, changed_by := "system",
             changed_at := now, action := "auto_archived",
             changes := some (.autoArchivedReplacedBy t.version) }] := by
  have hpe := List.find?_some h2
  have hme := List.mem_of_find?_eq_some h2
  have hmt := List.mem_of_find?_eq_some h1
  have htid : t.id = tid := by simpa using List.find?_some h1
  have hene : e.id ≠ tid := by
    have : (e.id != tid) = true := by
      simp only [Bool.and_eq_true] at hpe
      exact hpe.2
    simpa using this
  have hefind : db.prompts.find? (fun p => p.id == e.id) = some e :=
    find?_id_of_nodup hn hme
  have htfind : db.prompts.find? (fun p => p.id == tid) = some t := h1
  have hgpe : get_prompt (archiveRow db e.id now) e.id
      = some { e with status := .archived, is_active := false, updated_at := now } := by
    unfold get_prompt archiveRow
    show (updateRowById db.prompts e.id _).find? _ = _
    rw [find?_id_updateRowById (f := archFields now) (fun p => rfl)]
    rw [hefind]
    simp [archFields]
  have hgpt : get_prompt (archiveRow db e.id now) tid = some t := by
    unfold get_prompt archiveRow
    show (updateRowById db.prompts e.id _).find? _ = _
    rw [find?_id_updateRowById (f := archFields now) (fun p => rfl)]
    rw [htfind]
    have hne : ¬t.id = e.id := fun he => hene (by rw [← he, htid])
    simp [hne]
  have hmidP : get_prompt (archIntermediate db e t now) e.id
      = some { e with status := .archived, is_active := false, updated_at := now } := by
    unfold archIntermediate get_prompt
    rw [log_prompt_change_prompts]
    exact hgpe
  have hmidT : get_prompt (archIntermediate db e t now) tid = some t := by
    unfold archIntermediate get_prompt
    rw [log_prompt_change_prompts]
    exact hgpt
  have hmidH : (archIntermediate db e t now).history
      = db.history ++
        [{ id := db.nextHistoryId, prompt_id := e.id, version := e.version,
           content := e.content, description := e.description, status := .archived,
           tags := e.tags, metadata_ := e.metadata_, changed_by := "system",
           changed_at := now, action := "auto_archived",
           changes := some (.autoArchivedReplacedBy t.version) }] := by
    unfold archIntermediate log_prompt_change
    simp only [hgpe]
    rfl
  have hsteps : set_active_version_steps db tid ub now =
      [ .mutate (fun db2 => archiveRow db2 e.id now),
        .mutate (fun db2 =>
          log_prompt_change db2 e.id e.version "system" "auto_archived"
            (some (.autoArchivedReplacedBy t.version)) now),
        .commit,
        .mutate (fun db2 => activateRow db2 tid now),
        .mutate (fun db2 =>
          log_prompt_change db2 tid t.version ub "set_as_live_version" none now),
        .commit,
        .commit ] := by
    unfold set_active_version_steps
    simp only [h1]
    simp only [h2]
  refine ⟨?_, hmidP, hmidT, hmidH⟩
  intro k
  rcases k with _ | _ | _ | _ | _ | _ | _ | n
  · exact Or.inl rfl
  · left
    simp [committedAfter, hsteps, runSteps, Step.applyStep]
  · left
    simp [committedAfter, hsteps, runSteps, Step.applyStep]
  · right; left
    simp [committedAfter, hsteps, runSteps, Step.applyStep, archIntermediate]
  · right; left
    simp [committedAfter, hsteps, runSteps, Step.applyStep, archIntermediate]
  · right; left
    simp [committedAfter, hsteps, runSteps, Step.applyStep, archIntermediate]
  · right; right
    rw [set_active_version_eq_of_some h1 h2]
    simp [committedAfter, hsteps, runSteps, Step.applyStep, archIntermediate]
  · right; right
    simp only [committedAfter, hsteps]
    rw [List.take_of_length_le (by simp)]
    rw [set_active_version_eq_of_some h1 h2]
    simp [runSteps, Step.applyStep, archIntermediate]

theorem set_active_version_staged_witness :
    (dbLive.prompts.map (fun p => p.id)).Nodup
    ∧ get_prompt dbLive 2 = some rowB
    ∧ dbLive.prompts.find? (fun p =>
        p.name == rowB.name && p.is_active && p.id != 2) = some rowA
    ∧ rowB.is_active = false
    ∧ ((∀ k, committedAfter (set_active_version_steps dbLive 2 "alice" 5) dbLive k
          = dbLive
        ∨ committedAfter (set_active_version_steps dbLive 2 "alice" 5) dbLive k
          = archIntermediate dbLive rowA rowB 5
        ∨ committedAfter (set_active_version_steps dbLive 2 "alice" 5) dbLive k
          = set_active_version dbLive 2 "alice" 5)
      ∧ get_prompt (archIntermediate dbLive rowA rowB 5) rowA.id
        = some { rowA with status := .archived, is_active := false, updated_at := 5 }
      ∧ get_prompt (archIntermediate dbLive rowA rowB 5) 2 = some rowB
      ∧ (archIntermediate dbLive rowA rowB 5).history
        = dbLive.history ++
          [{ id := dbLive.nextHistoryId, prompt_id := rowA.id, version := rowA.version,
             content := rowA.content, description := rowA.description,
             status := .archived, tags := rowA.tags, metadata_ := rowA.metadata_,
             changed_by := "system", changed_at := 5, action := "auto_archived",
             changes := some (.autoArchivedReplacedBy rowB.version) }]) :=
  ⟨by decide, by decide, by decide, by decide,
   set_active_version_staged dbLive 2 "alice" 5 rowB rowA
     (by decide) (by decide) (by decide) (by decide)⟩

/-! ### Claim C4 -/

/-- C4: for a name with exactly two versions A (Live, is_active=true) and B (Draft,
is_active=false), running `set_active_version` on B archives A (status=Archived,
is_active=false), makes B Live (status=active, is_active=true), and appends exactly two
new HistoryEntry rows: an "auto_archived" entry by actor "system" referencing A, and a
"set_as_live_version" entry by the caller's actor referencing B. -/
theorem activate_handoff_two_versions (db : DB) (A B : PromptRow) (actor : String)
    (now : Nat) (hn : (db.prompts.map (fun p => p.id)).Nodup)
    (hA : A ∈ db.prompts) (hB : B ∈ db.prompts)
    (hname : A.name = B.name) (hid : A.id ≠ B.id)
    (honly : ∀ x ∈ db.prompts, x.name = B.name → x = A ∨ x = B)
    (hAact : A.is_active = true) (hAst : A.status = .active)
    (hBact : B.is_active = false) (hBst : B.status = .draft) :
    get_prompt (set_active_version db B.id actor now) A.id
      = some { A with status := .archived, is_active := false, updated_at := now }
    ∧ get_prompt (set_active_version db B.id actor now) B.id
      = some { B with status := .active, is_active := true, updated_at := now }
    ∧ (set_active_version db B.id actor now).history
      = db.history ++
        [{ id := db.nextHistoryId, prompt_id := A.id, version := A.version,
           content := A.content, description := A.description, status := .archived,
           tags := A.tags, metadata_ := A.metadata_, changed_by := "system",
           changed_at := now, action := "auto_archived",
           changes := some (.autoArchivedReplacedBy B.version) },
         { id := db.nextHistoryId + 1, prompt_id := B.id, version := B.version,
           content := B.content, description := B.description, status := .active,
           tags := B.tags, metadata_ := B.metadata_, changed_by := actor,
           changed_at := now, action := "set_as_live_version",
           changes := none }] := by
  have h1 : get_prompt db B.id = some B := find?_id_of_nodup hn hB
  have h2 : db.prompts.find?
      (fun p => p.name == B.name && p.is_active && p.id != B.id) = some A := by
    apply find?_eq_some_of_unique _ _ _ hA
    · simp [hname, hAact, hid]
    · intro x hx hpx
      simp only [Bool.and_eq_true, beq_iff_eq, bne_iff_ne] at hpx
      rcases honly x hx hpx.1.1 with rfl | rfl
      · rfl
      · rw [hpx.1.2] at hBact
        cases hBact
  have heq := @set_active_version_eq_of_some db B.id actor now B A h1 h2
  have hefind : db.prompts.find? (fun p => p.id == A.id) = some A :=
    find?_id_of_nodup hn hA
  have hgpeA : get_prompt (archiveRow db A.id now) A.id
      = some { A with status := .archived, is_active := false, updated_at := now } := by
    unfold get_prompt archiveRow
    show (updateRowById db.prompts A.id _).find? _ = _
    rw [find?_id_updateRowById (f := archFields now) (fun p => rfl)]
    rw [hefind]
    simp [archFields]
  have h1f : db.prompts.find? (fun p => p.id == B.id) = some B := h1
  have hgptB : get_prompt (archiveRow db A.id now) B.id = some B := by
    unfold get_prompt archiveRow
    show (updateRowById db.prompts A.id _).find? _ = _
    rw [find?_id_updateRowById (f := archFields now) (fun p => rfl)]
    rw [h1f]
    have hne : ¬B.id = A.id := fun he => hid he.symm
    simp [hne]
  have hmidprompts : (archIntermediate db A B now).prompts
      = (archiveRow db A.id now).prompts := by
    unfold archIntermediate
    rw [log_prompt_change_prompts]
  have hmidH : (archIntermediate db A B now).history
      = db.history ++
        [{ id := db.nextHistoryId, prompt_id := A.id, version := A.version,
           content := A.content, description := A.description, status := .archived,
           tags := A.tags, metadata_ := A.metadata_, changed_by := "system",
           changed_at := now, action := "auto_archived",
           changes := some (.autoArchivedReplacedBy B.version) }] := by
    unfold archIntermediate log_prompt_change
    simp only [hgpeA]
    rfl
  have hmidNext : (archIntermediate db A B now).nextHistoryId
      = db.nextHistoryId + 1 := by
    unfold archIntermediate log_prompt_change
    simp only [hgpeA]
    rfl
  have hactB : get_prompt (activateRow (archIntermediate db A B now) B.id now) B.id
      = some { B with status := .active, is_active := true, updated_at := now } := by
    unfold get_prompt activateRow
    show (updateRowById (archIntermediate db A B now).prompts B.id _).find? _ = _
    rw [find?_id_updateRowById (f := activeFields now) (fun p => rfl)]
    rw [hmidprompts]
    unfold get_prompt at hgptB
    rw [hgptB]
    simp [activeFields]
  have hactA : get_prompt (activateRow (archIntermediate db A B now) B.id now) A.id
      = some { A with status := .archived, is_active := false, updated_at := now } := by
    unfold get_prompt activateRow
    show (updateRowById (archIntermediate db A B now).prompts B.id _).find? _ = _
    rw [find?_id_updateRowById (f := activeFields now) (fun p => rfl)]
    rw [hmidprompts]
    unfold get_prompt at hgpeA
    rw [hgpeA]
    simp [hid, archFields, activeFields]
  refine ⟨?_, ?_, ?_⟩
  · rw [heq]
    unfold get_prompt
    rw [log_prompt_change_prompts]
    exact hactA
  · rw [heq]
    unfold get_prompt
    rw [log_prompt_change_prompts]
    exact hactB
  · rw [heq]
    unfold log_prompt_change
    simp only [hactB]
    have hah : (activateRow (archIntermediate db A B now) B.id now).history
        = (archIntermediate db A B now).history := activateRow_history _ _ _
    show (activateRow (archIntermediate db A B now) B.id now).history ++ _ = _
    rw [hah, hmidH]
    rw [List.append_assoc]
    have : (activateRow (archIntermediate db A B now) B.id now).nextHistoryId
        = db.nextHistoryId + 1 := hmidNext
    simp [this]

theorem activate_handoff_two_versions_witness :
    (dbLive.prompts.map (fun p => p.id)).Nodup
    ∧ rowA ∈ dbLive.prompts ∧ rowB ∈ dbLive.prompts
    ∧ rowA.name = rowB.name ∧ rowA.id ≠ rowB.id
    ∧ (∀ x ∈ dbLive.prompts, x.name = rowB.name → x = rowA ∨ x = rowB)
    ∧ rowA.is_active = true ∧ rowA.status = .active
    ∧ rowB.is_active = false ∧ rowB.status = .draft
    ∧ (get_prompt (set_active_version dbLive rowB.id "alice" 5) rowA.id
        = some { rowA with status := .archived, is_active := false, updated_at := 5 }
      ∧ get_prompt (set_active_version dbLive rowB.id "alice" 5) rowB.id
        = some { rowB with status := .active, is_active := true, updated_at := 5 }
      ∧ (set_active_version dbLive rowB.id "alice" 5).history
        = dbLive.history ++
          [{ id := dbLive.nextHistoryId, prompt_id := rowA.id, version := rowA.version,
             content := rowA.content, description := rowA.description,
             status := .archived, tags := rowA.tags, metadata_ := rowA.metadata_,
             changed_by := "system", changed_at := 5, action := "auto_archived",
             changes := some (.autoArchivedReplacedBy rowB.version) },
           { id := dbLive.nextHistoryId + 1, prompt_id := rowB.id,
             version := rowB.version, content := rowB.content,
             description := rowB.description, status := .active, tags := rowB.tags,
             metadata_ := rowB.metadata_, changed_by := "alice", changed_at := 5,
             action := "set_as_live_version", changes := none }]) :=
  ⟨by decide, by decide, by decide, by decide, by decide, by decide, by decide,
   by decide, by decide, by decide,
   activate_handoff_two_versions dbLive rowA rowB "alice" 5 (by decide) (by decide)
     (by decide) (by decide) (by decide) (by decide) (by decide) (by decide)
     (by decide) (by decide)⟩

/-! ### Claim C1 -/

theorem uniqueActive_create_prompt (db : DB) (pc : PromptCreate) (cb : String)
    (now : Nat) (hinv : UniqueActive db) :
    UniqueActive (create_prompt db pc cb now).1 := by
  cases hdup : get_prompt_version db pc.name pc.version with
  | some q =>
      have h : (create_prompt db pc cb now).1 = db := by
        unfold create_prompt
        simp only [hdup]
      rw [h]
      exact hinv
  | none =>
      have hpr : ((create_prompt db pc cb now).1).prompts
          = db.prompts ++ [mkPromptRow db.nextPromptId pc cb now] := by
        rw [create_prompt_eq_of_none hdup]
        show (log_prompt_change (inserted db pc cb now) _ _ _ _ _ _).prompts = _
        rw [log_prompt_change_prompts]
        rfl
      intro x hx y hy hnm hxact hyact
      rw [hpr] at hx hy
      rcases List.mem_append.1 hx with hx3 | hx3
      · rcases List.mem_append.1 hy with hy3 | hy3
        · exact hinv x hx3 y hy3 hnm hxact hyact
        · have : y = mkPromptRow db.nextPromptId pc cb now := by simpa using hy3
          rw [this] at hyact
          cases hyact
      · have : x = mkPromptRow db.nextPromptId pc cb now := by simpa using hx3
        rw [this] at hxact
        cases hxact

theorem uniqueActive_update_prompt (db : DB) (pid : Nat) (u : PromptUpdate)
    (ub : String) (now : Nat) (hinv : UniqueActive db) :
    UniqueActive (update_prompt db pid u ub now) := by
  cases h : get_prompt db pid with
  | none =>
      have hstate : update_prompt db pid u ub now = db := by
        unfold update_prompt
        simp only [h]
      rw [hstate]
      exact hinv
  | some p =>
      by_cases hc : updHasChanges p u = true
      · have hpr : (update_prompt db pid u ub now).prompts
            = updateRowById db.prompts pid (fun q => applyUpd q u now) := by
          unfold update_prompt
          simp only [h]
          rw [if_pos hc, log_prompt_change_prompts]
        intro x hx y hy hnm hxact hyact
        rw [hpr] at hx hy
        rcases mem_updateRowById.1 hx with ⟨a, ha, hxa⟩
        rcases mem_updateRowById.1 hy with ⟨b, hb, hyb⟩
        have hfacts : ∀ c : PromptRow,
            (if c.id == pid then applyUpd c u now else c).id = c.id
            ∧ (if c.id == pid then applyUpd c u now else c).name = c.name
            ∧ (if c.id == pid then applyUpd c u now else c).is_active = c.is_active := by
          intro c
          by_cases hcid : (c.id == pid) = true <;> simp [hcid, applyUpd]
        have hxid : x.id = a.id := by rw [hxa]; exact (hfacts a).1
        have hyid : y.id = b.id := by rw [hyb]; exact (hfacts b).1
        have hxname : x.name = a.name := by rw [hxa]; exact (hfacts a).2.1
        have hyname : y.name = b.name := by rw [hyb]; exact (hfacts b).2.1
        have hxac : x.is_active = a.is_active := by rw [hxa]; exact (hfacts a).2.2
        have hyac : y.is_active = b.is_active := by rw [hyb]; exact (hfacts b).2.2
        rw [hxid, hyid]
        exact hinv a ha b hb (by rw [← hxname, ← hyname]; exact hnm)
          (by rw [← hxac]; exact hxact) (by rw [← hyac]; exact hyact)
      · have hstate : update_prompt db pid u ub now = db := by
          unfold update_prompt
          simp only [h]
          rw [if_neg hc]
        rw [hstate]
        exact hinv

theorem uniqueActive_delete_prompt (db : DB) (pid : Nat) (dby : String) (now : Nat)
    (hinv : UniqueActive db) : UniqueActive (delete_prompt db pid dby now) := by
  cases h : get_prompt db pid with
  | none =>
      have hstate : delete_prompt db pid dby now = db := by
        unfold delete_prompt
        simp only [h]
      rw [hstate]
      exact hinv
  | some p =>
      have hpr : (delete_prompt db pid dby now).prompts
          = updateRowById db.prompts pid (archFields now) := by
        unfold delete_prompt
        simp only [h]
        show (updateRowById (log_prompt_change db _ _ _ _ _ _).prompts pid
          (archFields now)) = _
        rw [log_prompt_change_prompts]
      intro x hx y hy hnm hxact hyact
      rw [hpr] at hx hy
      rcases mem_updateRowById.1 hx with ⟨a, ha, hxa⟩
      rcases mem_updateRowById.1 hy with ⟨b, hb, hyb⟩
      by_cases hab : (a.id == pid) = true
      · rw [if_pos hab] at hxa
        rw [hxa] at hxact
        cases hxact
      · rw [if_neg hab] at hxa
        by_cases hbb : (b.id == pid) = true
        · rw [if_pos hbb] at hyb
          rw [hyb] at hyact
          cases hyact
        · rw [if_neg hbb] at hyb
          subst hxa; subst hyb
          exact hinv x ha y hb hnm hxact hyact

theorem uniqueActive_hard_delete_prompt (db : DB) (pid : Nat)
    (hinv : UniqueActive db) : UniqueActive (hard_delete_prompt db pid) := by
  cases h : get_prompt db pid with
  | none =>
      have hstate : hard_delete_prompt db pid = db := by
        unfold hard_delete_prompt
        simp only [h]
      rw [hstate]
      exact hinv
  | some p =>
      have hpr : (hard_delete_prompt db pid).prompts
          = db.prompts.filter (fun q => !(q.id == pid)) := by
        unfold hard_delete_prompt
        simp only [h]
      intro x hx y hy hnm hxact hyact
      rw [hpr] at hx hy
      exact hinv x (List.mem_of_mem_filter hx) y (List.mem_of_mem_filter hy)
        hnm hxact hyact

theorem uniqueActive_set_active_version (db : DB) (tid : Nat) (ub : String) (now : Nat)
    (hn : (db.prompts.map (fun p => p.id)).Nodup) (hinv : UniqueActive db) :
    UniqueActive (set_active_version db tid ub now) := by
  cases h1 : get_prompt db tid with
  | none =>
      rw [set_active_version_eq_of_absent h1]
      exact hinv
  | some t =>
      have htmem := List.mem_of_find?_eq_some h1
      have htid : t.id = tid := by simpa using List.find?_some h1
      cases h2 : db.prompts.find?
          (fun p => p.name == t.name && p.is_active && p.id != tid) with
      | some e =>
          rw [set_active_version_eq_of_some h1 h2]
          have hpe := List.find?_some h2
          simp only [Bool.and_eq_true, beq_iff_eq, bne_iff_ne] at hpe
          obtain ⟨⟨hename, heact⟩, hene⟩ := hpe
          have heme := List.mem_of_find?_eq_some h2
          intro x hx y hy hnm hxact hyact
          have hmidp : (archIntermediate db e t now).prompts
              = updateRowById db.prompts e.id (archFields now) := by
            unfold archIntermediate
            rw [log_prompt_change_prompts]
            rfl
          have hx2 : x ∈ updateRowById
              (updateRowById db.prompts e.id (archFields now)) tid
              (activeFields now) := by
            have h3 := hx
            rw [log_prompt_change_prompts] at h3
            show x ∈ updateRowById (updateRowById db.prompts e.id (archFields now))
              tid (activeFields now)
            rw [← hmidp]
            exact h3
          have hy2 : y ∈ updateRowById
              (updateRowById db.prompts e.id (archFields now)) tid
              (activeFields now) := by
            have h3 := hy
            rw [log_prompt_change_prompts] at h3
            rw [← hmidp]
            exact h3
          have char : ∀ w, w ∈ updateRowById
                (updateRowById db.prompts e.id (archFields now)) tid
                (activeFields now) →
              w.is_active = true →
              w = activeFields now t
              ∨ (w ∈ db.prompts ∧ w.is_active = true ∧ w.name ≠ t.name) := by
            intro w hw hwact
            rcases mem_updateRowById.1 hw with ⟨a, ha, hwa⟩
            rcases mem_updateRowById.1 ha with ⟨z, hz, haz⟩
            by_cases hzt : z.id = tid
            · have hz_t : z = t := map_id_nodup_inj hn hz htmem (by rw [hzt, htid])
              subst hz_t
              have hne : ¬(z.id = e.id) := by
                rw [hzt]
                exact fun he => hene he.symm
              rw [if_neg (by simpa using hne)] at haz
              subst haz
              rw [if_pos (by simpa using hzt)] at hwa
              exact Or.inl hwa
            · by_cases hze : z.id = e.id
              · rw [if_pos (by simpa using hze)] at haz
                have haid : a.id = z.id := by rw [haz]; rfl
                have hane : ¬(a.id = tid) := by rw [haid]; exact hzt
                rw [if_neg (by simpa using hane)] at hwa
                rw [hwa, haz] at hwact
                cases hwact
              · rw [if_neg (by simpa using hze)] at haz
                subst haz
                have hane : ¬(a.id = tid) := hzt
                rw [if_neg (by simpa using hane)] at hwa
                subst hwa
                refine Or.inr ⟨hz, hwact, ?_⟩
                intro hnm2
                exact hze (hinv w hz e heme (hnm2.trans hename.symm) hwact heact)
          rcases char x hx2 hxact with hxc | ⟨hxm, hxa, hxn⟩
          · rcases char y hy2 hyact with hyc | ⟨hym, hya, hyn⟩
            · rw [hxc, hyc]
            · exfalso
              apply hyn
              rw [← hnm, hxc]
              rfl
          · rcases char y hy2 hyact with hyc | ⟨hym, hya, hyn⟩
            · exfalso
              apply hxn
              rw [hnm, hyc]
              rfl
            · exact hinv x hxm y hym hnm hxa hya
      | none =>
          rw [set_active_version_eq_of_noneActive h1 h2]
          intro x hx y hy hnm hxact hyact
          have hx2 : x ∈ updateRowById db.prompts tid (activeFields now) := by
            have h3 := hx
            rw [log_prompt_change_prompts] at h3
            exact h3
          have hy2 : y ∈ updateRowById db.prompts tid (activeFields now) := by
            have h3 := hy
            rw [log_prompt_change_prompts] at h3
            exact h3
          have char : ∀ w, w ∈ updateRowById db.prompts tid (activeFields now) →
              w.is_active = true →
              w = activeFields now t
              ∨ (w ∈ db.prompts ∧ w.is_active = true ∧ w.name ≠ t.name) := by
            intro w hw hwact
            rcases mem_updateRowById.1 hw with ⟨z, hz, hwz⟩
            by_cases hzt : z.id = tid
            · have hz_t : z = t := map_id_nodup_inj hn hz htmem (by rw [hzt, htid])
              subst hz_t
              rw [if_pos (by simpa using hzt)] at hwz
              exact Or.inl hwz
            · rw [if_neg (by simpa using hzt)] at hwz
              subst hwz
              refine Or.inr ⟨hz, hwact, ?_⟩
              intro hnm2
              have hfn := List.find?_eq_none.1 h2 w hz
              apply hfn
              simp [hnm2, hwact, hzt]
          rcases char x hx2 hxact with hxc | ⟨hxm, hxa, hxn⟩
          · rcases char y hy2 hyact with hyc | ⟨hym, hya, hyn⟩
            · rw [hxc, hyc]
            · exfalso
              apply hyn
              rw [← hnm, hxc]
              rfl
          · rcases char y hy2 hyact with hyc | ⟨hym, hya, hyn⟩
            · exfalso
              apply hxn
              rw [hnm, hyc]
              rfl
            · exact hinv x hxm y hym hnm hxa hya

theorem wf_of_prompts_eq {d1 d2 : DB} (hp : d1.prompts = d2.prompts)
    (hn : d1.nextPromptId = d2.nextPromptId) (hwf : d2.WF) : d1.WF := by
  constructor
  · rw [hp]
    exact hwf.1
  · intro p hpm
    rw [hn]
    exact hwf.2 p (hp ▸ hpm)

theorem wf_updateRowById (db : DB) (l : List PromptRow) (pid : Nat)
    (f : PromptRow → PromptRow) (hf : ∀ p, (f p).id = p.id)
    (hl : l = updateRowById db.prompts pid f) (hwf : db.WF) :
    (l.map (fun p => p.id)).Nodup ∧ ∀ p ∈ l, p.id < db.nextPromptId := by
  subst hl
  constructor
  · rw [updateRowById_map_id hf]
    exact hwf.1
  · intro p hp
    rcases mem_updateRowById.1 hp with ⟨a, ha, hpa⟩
    have : p.id = a.id := by
      rw [hpa]
      by_cases hcid : (a.id == pid) = true
      · rw [if_pos hcid]
        exact hf a
      · rw [if_neg hcid]
    rw [this]
    exact hwf.2 a ha

theorem wf_create_prompt (db : DB) (pc : PromptCreate) (cb : String) (now : Nat)
    (hwf : db.WF) : ((create_prompt db pc cb now).1).WF := by
  cases hdup : get_prompt_version db pc.name pc.version with
  | some q =>
      have h : (create_prompt db pc cb now).1 = db := by
        unfold create_prompt
        simp only [hdup]
      rw [h]
      exact hwf
  | none =>
      have hpr : ((create_prompt db pc cb now).1).prompts
          = db.prompts ++ [mkPromptRow db.nextPromptId pc cb now] := by
        rw [create_prompt_eq_of_none hdup]
        show (log_prompt_change (inserted db pc cb now) _ _ _ _ _ _).prompts = _
        rw [log_prompt_change_prompts]
        rfl
      have hni : ((create_prompt db pc cb now).1).nextPromptId
          = db.nextPromptId + 1 := by
        rw [create_prompt_eq_of_none hdup]
        show (log_prompt_change (inserted db pc cb now) _ _ _ _ _ _).nextPromptId = _
        rw [log_prompt_change_nextPromptId]
        rfl
      constructor
      · rw [hpr, List.map_append]
        apply List.Nodup.append hwf.1 (List.nodup_singleton _)
        intro i hi hi2
        simp only [List.map_cons, List.map_nil, List.mem_singleton] at hi2
        rcases List.mem_map.1 hi with ⟨p, hp, hpi⟩
        have : p.id < db.nextPromptId := hwf.2 p hp
        rw [hpi, hi2] at this
        simp only [mkPromptRow] at this
        exact lt_irrefl _ this
      · intro p hp
        rw [hpr] at hp
        rw [hni]
        rcases List.mem_append.1 hp with hp2 | hp2
        · exact lt_trans (hwf.2 p hp2) (Nat.lt_succ_self _)
        · have : p = mkPromptRow db.nextPromptId pc cb now := by simpa using hp2
          rw [this]
          exact Nat.lt_succ_self _

theorem wf_update_prompt (db : DB) (pid : Nat) (u : PromptUpdate) (ub : String)
    (now : Nat) (hwf : db.WF) : (update_prompt db pid u ub now).WF := by
  cases h : get_prompt db pid with
  | none =>
      have hstate : update_prompt db pid u ub now = db := by
        unfold update_prompt
        simp only [h]
      rw [hstate]
      exact hwf
  | some p =>
      by_cases hc : updHasChanges p u = true
      · have hpr : (update_prompt db pid u ub now).prompts
            = updateRowById db.prompts pid (fun q => applyUpd q u now) := by
          unfold update_prompt
          simp only [h]
          rw [if_pos hc, log_prompt_change_prompts]
        have hni : (update_prompt db pid u ub now).nextPromptId = db.nextPromptId := by
          unfold update_prompt
          simp only [h]
          rw [if_pos hc, log_prompt_change_nextPromptId]
        obtain ⟨hn2, hb2⟩ := wf_updateRowById db
          (updateRowById db.prompts pid (fun q => applyUpd q u now)) pid
          (fun q => applyUpd q u now) (fun q => rfl) rfl hwf
        refine ⟨?_, ?_⟩
        · rw [hpr]
          exact hn2
        · intro q hq
          rw [hpr] at hq
          rw [hni]
          exact hb2 q hq
      · have hstate : update_prompt db pid u ub now = db := by
          unfold update_prompt
          simp only [h]
          rw [if_neg hc]
        rw [hstate]
        exact hwf

theorem wf_delete_prompt (db : DB) (pid : Nat) (dby : String) (now : Nat)
    (hwf : db.WF) : (delete_prompt db pid dby now).WF := by
  cases h : get_prompt db pid with
  | none =>
      have hstate : delete_prompt db pid dby now = db := by
        unfold delete_prompt
        simp only [h]
      rw [hstate]
      exact hwf
  | some p =>
      have hpr : (delete_prompt db pid dby now).prompts
          = updateRowById db.prompts pid (archFields now) := by
        unfold delete_prompt
        simp only [h]
        show (updateRowById (log_prompt_change db _ _ _ _ _ _).prompts pid
          (archFields now)) = _
        rw [log_prompt_change_prompts]
      have hni : (delete_prompt db pid dby now).nextPromptId = db.nextPromptId := by
        unfold delete_prompt
        simp only [h]
        show (log_prompt_change db _ _ _ _ _ _).nextPromptId = _
        rw [log_prompt_change_nextPromptId]
      obtain ⟨hn2, hb2⟩ := wf_updateRowById db _ pid (archFields now)
        (fun q => rfl) rfl hwf
      refine ⟨?_, ?_⟩
      · rw [hpr]
        exact hn2
      · intro q hq
        rw [hpr] at hq
        rw [hni]
        exact hb2 q hq

theorem wf_hard_delete_prompt (db : DB) (pid : Nat) (hwf : db.WF) :
    (hard_delete_prompt db pid).WF := by
  cases h : get_prompt db pid with
  | none =>
      have hstate : hard_delete_prompt db pid = db := by
        unfold hard_delete_prompt
        simp only [h]
      rw [hstate]
      exact hwf
  | some p =>
      have hpr : (hard_delete_prompt db pid).prompts
          = db.prompts.filter (fun q => !(q.id == pid)) := by
        unfold hard_delete_prompt
        simp only [h]
      have hni : (hard_delete_prompt db pid).nextPromptId = db.nextPromptId := by
        unfold hard_delete_prompt
        simp only [h]
      have hsub : List.Sublist
          ((db.prompts.filter (fun q => !(q.id == pid))).map (fun p => p.id))
          (db.prompts.map (fun p => p.id)) :=
        List.Sublist.map _ (List.filter_sublist _)
      refine ⟨?_, ?_⟩
      · rw [hpr]
        exact List.Nodup.sublist hsub hwf.1
      · intro q hq
        rw [hpr] at hq
        rw [hni]
        exact hwf.2 q (List.mem_of_mem_filter hq)

theorem wf_set_active_version (db : DB) (tid : Nat) (ub : String) (now : Nat)
    (hwf : db.WF) : (set_active_version db tid ub now).WF := by
  cases h1 : get_prompt db tid with
  | none =>
      rw [set_active_version_eq_of_absent h1]
      exact hwf
  | some t =>
      cases h2 : db.prompts.find?
          (fun p => p.name == t.name && p.is_active && p.id != tid) with
      | some e =>
          rw [set_active_version_eq_of_some h1 h2]
          have hpr : (log_prompt_change (activateRow (archIntermediate db e t now)
              tid now) tid t.version ub "set_as_live_version" none now).prompts
              = updateRowById (updateRowById db.prompts e.id (archFields now)) tid
                  (activeFields now) := by
            rw [log_prompt_change_prompts]
            show updateRowById (archIntermediate db e t now).prompts tid
              (activeFields now) = _
            unfold archIntermediate
            rw [log_prompt_change_prompts]
            rfl
          have hni : (log_prompt_change (activateRow (archIntermediate db e t now)
              tid now) tid t.version ub "set_as_live_version" none now).nextPromptId
              = db.nextPromptId := by
            rw [log_prompt_change_nextPromptId]
            show (archIntermediate db e t now).nextPromptId = _
            unfold archIntermediate
            rw [log_prompt_change_nextPromptId]
            rfl
          refine ⟨?_, ?_⟩
          · rw [hpr, updateRowById_map_id (f := activeFields now) (fun q => rfl),
              updateRowById_map_id (f := archFields now) (fun q => rfl)]
            exact hwf.1
          · intro q hq
            rw [hpr] at hq
            rw [hni]
            rcases mem_updateRowById.1 hq with ⟨a, ha, hqa⟩
            rcases mem_updateRowById.1 ha with ⟨z, hz, haz⟩
            have hqz : q.id = z.id := by
              rw [hqa]
              have h3 : a.id = z.id := by
                rw [haz]
                by_cases hc : (z.id == e.id) = true
                · rw [if_pos hc]; rfl
                · rw [if_neg hc]
              by_cases hc : (a.id == tid) = true
              · rw [if_pos hc]
                exact h3
              · rw [if_neg hc]
                exact h3
            rw [hqz]
            exact hwf.2 z hz
      | none =>
          rw [set_active_version_eq_of_noneActive h1 h2]
          have hpr : (log_prompt_change (activateRow db tid now) tid t.version ub
              "set_as_live_version" none now).prompts
              = updateRowById db.prompts tid (activeFields now) := by
            rw [log_prompt_change_prompts]
            rfl
          have hni : (log_prompt_change (activateRow db tid now) tid t.version ub
              "set_as_live_version" none now).nextPromptId = db.nextPromptId := by
            rw [log_prompt_change_nextPromptId]
            rfl
          obtain ⟨hn2, hb2⟩ := wf_updateRowById db _ tid (activeFields now)
            (fun q => rfl) rfl hwf
          refine ⟨?_, ?_⟩
          · rw [hpr]
            exact hn2
          · intro q hq
            rw [hpr] at hq
            rw [hni]
            exact hb2 q hq

theorem wf_applyOp (db : DB) (op : Op) (hwf : db.WF) : (applyOp db op).WF := by
  cases op with
  | create pc cb now => exact wf_create_prompt db pc cb now hwf
  | update pid u ub now => exact wf_update_prompt db pid u ub now hwf
  | setActive pid ub now => exact wf_set_active_version db pid ub now hwf
  | softDelete pid dby now => exact wf_delete_prompt db pid dby now hwf
  | hardDelete pid => exact wf_hard_delete_prompt db pid hwf

theorem uniqueActive_applyOp (db : DB) (op : Op) (hwf : db.WF)
    (hinv : UniqueActive db) : UniqueActive (applyOp db op) := by
  cases op with
  | create pc cb now => exact uniqueActive_create_prompt db pc cb now hinv
  | update pid u ub now => exact uniqueActive_update_prompt db pid u ub now hinv
  | setActive pid ub now =>
      exact uniqueActive_set_active_version db pid ub now hwf.1 hinv
  | softDelete pid dby now => exact uniqueActive_delete_prompt db pid dby now hinv
  | hardDelete pid => exact uniqueActive_hard_delete_prompt db pid hinv

/-- C1: starting from a well-formed store in which, for every name, at most one version
is active, every sequence of committed engine operations (create_prompt, update_prompt,
set_active_version, delete_prompt, hard_delete_prompt) preserves that invariant.
Since this holds for every operation list, it holds in particular for every prefix of a
list — i.e. after each operation commits. -/
theorem uniqueActive_preserved (ops : List Op) (db : DB) (hwf : db.WF)
    (hinv : UniqueActive db) : UniqueActive (applyOps db ops) := by
  induction ops generalizing db with
  | nil => exact hinv
  | cons op rest ih =>
      show UniqueActive (applyOps (applyOp db op) rest)
      exact ih (applyOp db op) (wf_applyOp db op hwf) (uniqueActive_applyOp db op hwf hinv)

theorem uniqueActive_preserved_witness :
    DB.WF dbEmpty ∧ UniqueActive dbEmpty
    ∧ UniqueActive (applyOps dbEmpty
        [Op.create samplePC "u" 0, Op.setActive 1 "u" 1,
         Op.create { samplePC with version := "2.0.0" } "u" 2, Op.setActive 2 "u" 3]) :=
  ⟨by decide, by decide,
   uniqueActive_preserved
     [Op.create samplePC "u" 0, Op.setActive 1 "u" 1,
      Op.create { samplePC with version := "2.0.0" } "u" 2, Op.setActive 2 "u" 3]
     dbEmpty (by decide) (by decide)⟩

end PromptManager
